import Mathlib

set_option maxHeartbeats 1000000
set_option maxRecDepth 4000

/-!
Shallow embedding of the Perspective session dispatcher
(`_PerspectiveManagerInternal` in
src/python/perspective/perspective/manager/manager_internal.py).

JSON-ish wire values are modelled by the mutual inductive `JVal`;
non-finite floats (NaN, +Inf, -Inf) and datetimes are explicit
constructors because the message codec treats them specially.
Registries are association lists keyed by strings, matching Python
dict semantics for the operations the source uses (setitem keeps the
original key position, `pop` removes the key).  The table/view engine
is an external collaborator and is represented by a `Backend` oracle;
every call into it is recorded as an `Event` so that theorems can talk
about which backend methods were (not) invoked.
-/

mutual

inductive JVal where
  | null : JVal
  | boolv : Bool → JVal
  | intv : Int → JVal
  | nan : JVal
  | inf : JVal
  | ninf : JVal
  | strv : String → JVal
  | bytes : List Nat → JVal
  | datetime : Int → JVal
  | arr : JList → JVal
  | obj : JObj → JVal

inductive JList where
  | nil : JList
  | cons : JVal → JList → JList

inductive JObj where
  | nil : JObj
  | cons : String → JVal → JObj → JObj

end

def JList.ofList : List JVal → JList
  | [] => .nil
  | x :: xs => .cons x (JList.ofList xs)

def JObj.ofList : List (String × JVal) → JObj
  | [] => .nil
  | (k, v) :: xs => .cons k v (JObj.ofList xs)

def JObj.lookup : JObj → String → Option JVal
  | .nil, _ => none
  | .cons k v rest, key => if k == key then some v else JObj.lookup rest key

def JObj.pairs : JObj → List (String × JVal)
  | .nil => []
  | .cons k v rest => (k, v) :: JObj.pairs rest

/-- Python truthiness of a JSON-ish value (used by `if callback_id:`). -/
def JVal.truthy : JVal → Bool
  | .null => false
  | .boolv b => b
  | .intv n => n != 0
  | .nan => true
  | .inf => true
  | .ninf => true
  | .strv s => s != ""
  | .bytes bs => !bs.isEmpty
  | .datetime _ => true
  | .arr .nil => false
  | .arr _ => true
  | .obj .nil => false
  | .obj _ => true

/-- Plain scalar ids (ints and strings), the shapes a JSON client uses for
the correlation id. -/
def JVal.idSimple : JVal → Bool
  | .intv _ => true
  | .strv _ => true
  | _ => false

def JVal.isObj : JVal → Bool
  | .obj _ => true
  | _ => false

mutual

/-- Structural equality of wire values (Python `==`/`!=` on decoded JSON
values; only ever used on scalar callback ids by the source). -/
def JVal.beq : JVal → JVal → Bool
  | .null, .null => true
  | .boolv a, .boolv b => a == b
  | .intv a, .intv b => a == b
  | .nan, .nan => true
  | .inf, .inf => true
  | .ninf, .ninf => true
  | .strv a, .strv b => a == b
  | .bytes a, .bytes b => a == b
  | .datetime a, .datetime b => a == b
  | .arr a, .arr b => JList.beq a b
  | .obj a, .obj b => JObj.beq a b
  | _, _ => false

def JList.beq : JList → JList → Bool
  | .nil, .nil => true
  | .cons x xs, .cons y ys => JVal.beq x y && JList.beq xs ys
  | _, _ => false

def JObj.beq : JObj → JObj → Bool
  | .nil, .nil => true
  | .cons k v r, .cons k2 v2 r2 => k == k2 && JVal.beq v v2 && JObj.beq r r2
  | _, _ => false

end

mutual

/-- No raw byte values anywhere inside the value (bytes are the one wire
value `json.dumps` rejects with a TypeError). -/
def JVal.noBytes : JVal → Bool
  | .bytes _ => false
  | .arr xs => JList.noBytes xs
  | .obj o => JObj.noBytes o
  | _ => true

def JList.noBytes : JList → Bool
  | .nil => true
  | .cons x xs => JVal.noBytes x && JList.noBytes xs

def JObj.noBytes : JObj → Bool
  | .nil => true
  | .cons _ v r => JVal.noBytes v && JObj.noBytes r

end

mutual

/-- Some non-finite float (NaN, +Inf, -Inf) occurs inside the value. -/
def JVal.hasNonFinite : JVal → Bool
  | .nan => true
  | .inf => true
  | .ninf => true
  | .arr xs => JList.hasNonFinite xs
  | .obj o => JObj.hasNonFinite o
  | _ => false

def JList.hasNonFinite : JList → Bool
  | .nil => false
  | .cons x xs => JVal.hasNonFinite x || JList.hasNonFinite xs

def JObj.hasNonFinite : JObj → Bool
  | .nil => false
  | .cons _ v r => JVal.hasNonFinite v || JObj.hasNonFinite r

end

mutual

/-- A value that survives `json.dumps(-, cls=DateTimeEncoder)` unchanged:
no raw bytes and no datetime anywhere (what a JSON-decoded message always
satisfies). -/
def JVal.wireOk : JVal → Bool
  | .bytes _ => false
  | .datetime _ => false
  | .arr xs => JList.wireOk xs
  | .obj o => JObj.wireOk o
  | _ => true

def JList.wireOk : JList → Bool
  | .nil => true
  | .cons x xs => JVal.wireOk x && JList.wireOk xs

def JObj.wireOk : JObj → Bool
  | .nil => true
  | .cons _ v r => JVal.wireOk v && JObj.wireOk r

end

inductive EncErr where
  | valueErr : EncErr
  | typeErr : EncErr
deriving DecidableEq

mutual

/-- The `json.dumps` value traversal.  `an` is `allow_nan` (when false a
non-finite float raises ValueError, the source passes `allow_nan=False`
in `_message_to_json`); `dt` selects `cls=DateTimeEncoder`, which renders
datetimes as millisecond timestamps — without it a datetime, like any
non-JSON type, raises TypeError. -/
def encV (an dt : Bool) : JVal → Except EncErr JVal
  | .null => .ok .null
  | .boolv b => .ok (.boolv b)
  | .intv n => .ok (.intv n)
  | .nan => if an then .ok .nan else .error .valueErr
  | .inf => if an then .ok .inf else .error .valueErr
  | .ninf => if an then .ok .ninf else .error .valueErr
  | .strv s => .ok (.strv s)
  | .bytes _ => .error .typeErr
  | .datetime ts => if dt then .ok (.intv ts) else .error .typeErr
  | .arr xs =>
    match encL an dt xs with
    | .ok ys => .ok (.arr ys)
    | .error e => .error e
  | .obj o =>
    match encO an dt o with
    | .ok o2 => .ok (.obj o2)
    | .error e => .error e

def encL (an dt : Bool) : JList → Except EncErr JList
  | .nil => .ok .nil
  | .cons x xs =>
    match encV an dt x with
    | .error e => .error e
    | .ok y =>
      match encL an dt xs with
      | .error e => .error e
      | .ok ys => .ok (.cons y ys)

def encO (an dt : Bool) : JObj → Except EncErr JObj
  | .nil => .ok .nil
  | .cons k v r =>
    match encV an dt v with
    | .error e => .error e
    | .ok w =>
      match encO an dt r with
      | .error e => .error e
      | .ok r2 => .ok (.cons k w r2)

end

/-- Python exceptions the dispatcher distinguishes.  `perspective` and
`perspectiveCpp` are the two caught by `_process`; everything else is
only caught by the blanket `except Exception` in `_process_method_call`
and `_process_subscribe`.  Each constructor carries its `str(e)` text. -/
inductive Exc where
  | perspective : String → Exc
  | perspectiveCpp : String → Exc
  | attributeError : String → Exc
  | indexError : String → Exc
  | keyError : String → Exc
  | typeError : String → Exc
  | unboundLocal : String → Exc
  | backendError : String → Exc
deriving DecidableEq

def Exc.str : Exc → String
  | .perspective s => s
  | .perspectiveCpp s => s
  | .attributeError s => s
  | .indexError s => s
  | .keyError s => s
  | .typeError s => s
  | .unboundLocal s => s
  | .backendError s => s

def Exc.isPerspective : Exc → Bool
  | .perspective _ => true
  | .perspectiveCpp _ => true
  | _ => false

/- String constants of the source (bound to names so that literals never
appear in function-application position). -/
def sInit : String := "init"
def sTable : String := "table"
def sView : String := "view"
def sTableMethod : String := "table_method"
def sViewMethod : String := "view_method"
def sDelete : String := "delete"
def sUpdate : String := "update"
def sRemove : String := "remove"
def sSchema : String := "schema"
def sComputedSchema : String := "computed_schema"
def sGetCompInputTypes : String := "get_computation_input_types"
def sToPrefix : String := "to_"
def sToCsv : String := "to_csv"
def sOn : String := "on"
def sOnUpdate : String := "on_update"
def sMode : String := "mode"
def sNone : String := "none"
def sAsString : String := "as_string"
def idKey : String := "id"
def sNoneTypeCls : String := "NoneType"
def sListCls : String := "list"
def viewNotInitText : String := "View is not initialized"

def pyQuote (s : String) : String := "\x27" ++ s ++ "\x27"

def quotedName : String := "\x27name\x27"
def quotedMethod : String := "\x27method\x27"
def quotedArgs : String := "\x27args\x27"
def quotedTableName : String := "\x27table_name\x27"
def quotedViewName : String := "\x27view_name\x27"

/-- `str(AttributeError)` raised by `getattr(x, m)` on a `NoneType`/`list`. -/
def noAttrMsg (cls mth : String) : String :=
  "\x27" ++ cls ++ "\x27 object has no attribute \x27" ++ mth ++ "\x27"

def indexOutOfRangeText : String := "list index out of range"
def unboundResultText : String :=
  "local variable \x27result\x27 referenced before assignment"
def nanErrorText : String :=
  "Cannot serialize \x60NaN\x60, \x60Infinity\x60 or \x60-Infinity\x60 to JSON."
def serializationPrefixText : String := "JSON serialization error: "
def bytesTypeErrorText : String := "Object of type bytes is not JSON serializable"
def kwargsNotMappingText : String := "argument after ** must be a mapping"
def updateNotMappingText : String :=
  "cannot convert dictionary update sequence element"
def malformedText : String :=
  "Message passed into \x60_process\x60 should either be a JSON-serialized string or a dict."

/-- `_make_message` (lines 268-273). -/
def makeMessage (id result : JVal) : JVal :=
  .obj (JObj.ofList [("id", id), ("data", result)])

/-- `_make_error_message` (lines 275-280). -/
def makeErrorMessage (id : JVal) (error : String) : JVal :=
  .obj (JObj.ofList [("id", id), ("error", .strv error)])

/-- `_message_to_json` (lines 282-306): `json.dumps(message, allow_nan=False,
cls=DateTimeEncoder)`.  The ValueError raised for a non-finite float (its text
is always the "Out of range float values" message, which the source rewrites
to `nanErrorText`) falls back to `json.dumps(error_message)` with default
settings; a TypeError (an unserializable value such as bytes) is not caught
and propagates to the caller. -/
def messageToJson (id message : JVal) : Except Exc JVal :=
  match encV false true message with
  | .ok v => .ok v
  | .error .typeErr => .error (.typeError bytesTypeErrorText)
  | .error .valueErr =>
    match encV true false (makeErrorMessage id (serializationPrefixText ++ nanErrorText)) with
    | .ok v => .ok v
    | .error _ => .error (.typeError bytesTypeErrorText)

def getId : JVal → Option JVal
  | .obj o => JObj.lookup o idKey
  | _ => none

/-- A client request, as the dict the dispatcher receives.  Optional keys are
`Option`/defaulted fields; the keyword maps `options`/`config` are typed as
key-value lists (the spec's "keyword maps"). -/
structure Msg where
  id : JVal
  cmd : String
  name : Option String := none
  table_name : Option String := none
  view_name : Option String := none
  method : Option String := none
  args : Option (List JVal) := none
  options : List (String × JVal) := []
  config : List (String × JVal) := []
  subscribe : Bool := false
  callback_id : Option JVal := none

/-- The non-id keys of the message rendered back to a wire dict. -/
def Msg.restPairs (m : Msg) (transferable : Bool) : List (String × JVal) :=
  [("cmd", JVal.strv m.cmd)]
    ++ (match m.name with | some s => [("name", JVal.strv s)] | none => [])
    ++ (match m.table_name with | some s => [("table_name", JVal.strv s)] | none => [])
    ++ (match m.view_name with | some s => [("view_name", JVal.strv s)] | none => [])
    ++ (match m.method with | some s => [("method", JVal.strv s)] | none => [])
    ++ (match m.args with
        | some xs => [("args", JVal.arr (JList.ofList xs))]
        | none => [])
    ++ (match m.options with
        | [] => []
        | l => [("options", JVal.obj (JObj.ofList l))])
    ++ (match m.config with
        | [] => []
        | l => [("config", JVal.obj (JObj.ofList l))])
    ++ (if m.subscribe then [("subscribe", JVal.boolv true)] else [])
    ++ (match m.callback_id with | some v => [("callback_id", v)] | none => [])
    ++ (if transferable then [("is_transferable", JVal.boolv true)] else [])

/-- The message rendered back to a wire dict, the "id" key first (used by
`_process_bytes`, which dumps the original message after setting
`is_transferable`). -/
def Msg.toJVal (m : Msg) (transferable : Bool) : JVal :=
  .obj (.cons idKey m.id (JObj.ofList (m.restPairs transferable)))

/-- A table registry entry: a real `Table` handle, or the bare `[]` the source
stores when the `table` command has an empty `args` list (IndexError branch,
lines 81-82). -/
inductive TableEntry where
  | real : TableEntry
  | placeholder : TableEntry
deriving DecidableEq

/-- A view registry entry, tagged with the client that created it. -/
structure ViewEntry where
  clientId : Option String
deriving DecidableEq

/-- A callback-cache record (spec §3 "Callback Record"); `msgId` stands for
the bound closure `partial(self.callback, msg=msg, post_callback=...)`,
identified by the message it captured. -/
structure CbRecord where
  clientId : Option String
  callbackId : JVal
  name : Option String
  msgId : JVal

/- Association-list operations with Python-dict semantics. -/

def getKey {α : Type} : List (String × α) → String → Option α
  | [], _ => none
  | (k, v) :: rest, key => if k == key then some v else getKey rest key

def setKey {α : Type} : List (String × α) → String → α → List (String × α)
  | [], key, v => [(key, v)]
  | (k, w) :: rest, key, v =>
    if k == key then (k, v) :: rest else (k, w) :: setKey rest key v

def delKey {α : Type} : List (String × α) → String → List (String × α)
  | [], _ => []
  | (k, v) :: rest, key => if k == key then rest else (k, v) :: delKey rest key

/-- Manager state: the lock flag and the three registries (spec §2).  The
attributes themselves (`_lock`, `_tables`, `_views`, `_callback_cache`) are
initialised outside src/; modelled from the spec's data model. -/
structure MState where
  lock : Bool
  tables : List (String × TableEntry)
  views : List (String × ViewEntry)
  callbacks : List CbRecord

inductive HKind where
  | table : HKind
  | view : HKind
deriving DecidableEq

/-- The engine oracle: behaviour of the out-of-scope table/view backend.
`tableNew` is the `Table(data_or_schema, **options)` constructor, `tableView`
is `table.view(**config)`, `call` a method call `getattr(h, m)(*pos, **kw)`,
and `subCall` an `on_*` subscription call `getattr(h, m)(callback, **kw)`. -/
structure Backend where
  tableNew : JVal → List (String × JVal) → Except Exc Unit
  tableView : String → List (String × JVal) → Except Exc Unit
  call : HKind → String → String → List JVal → List (String × JVal) → Except Exc JVal
  subCall : HKind → String → String → List (String × JVal) → Except Exc Unit

/-- Observable actions taken by the dispatcher on the registries/backend. -/
inductive Event where
  | invoke : HKind → String → String → List JVal → List (String × JVal) → Event
  | invokeSub : HKind → String → String → List (String × JVal) → Event
  | addCb : CbRecord → Event
  | removeCbs : JVal → Event
  | newTable : String → Event
  | newView : String → String → Event

/-- One transport frame handed to `post_callback`: a JSON text frame (held as
the dumped value) or a raw binary frame (`binary=True`). -/
inductive Frame where
  | json : JVal → Frame
  | binary : List Nat → Frame

/-- Result of running a dispatcher entry point: the new state, the frames
posted (in order), the backend/registry events (in order), and the exception
escaping the dispatcher, if any. -/
structure Step where
  st : MState
  frames : List Frame
  trace : List Event
  raised : Option Exc

/-- `LOCKED_COMMANDS` (line 37). -/
def LOCKED_COMMANDS : List String := ["table", "update", "remove", "replace", "clear"]

/-- `_is_locked_command` (lines 308-321). -/
def isLockedCommand (lock : Bool) (m : Msg) : Bool :=
  if !lock then false
  else if m.cmd == sTableMethod && m.method == some sDelete then true
  else
    m.cmd == sTable ||
      (match m.method with
       | some mm => LOCKED_COMMANDS.contains mm
       | none => false)

/-- The shape of the `args` local of `_process_method_call`: either the
kwargs dict built for schema and `to_` style methods, or the positional list
`msg.get("args", [])`. -/
inductive ShapedArgs where
  | kw : List (String × JVal) → ShapedArgs
  | pos : List JVal → ShapedArgs

/-- Python `f(*args)`: splatting a list passes its elements, splatting a
dict passes its keys (this is what happens to the `{"as_string": True}`
dict when the method is `schema`, line 145). -/
def ShapedArgs.posOf : ShapedArgs → List JVal
  | .pos xs => xs
  | .kw kvs => kvs.map (fun p => JVal.strv p.1)

def ShapedArgs.kwOf : ShapedArgs → List (String × JVal)
  | .kw kvs => kvs
  | .pos _ => []

/-- Python `dict.update` with a dict argument: merge, last writer wins. -/
def dictUpdate (acc : List (String × JVal)) (kvs : List (String × JVal)) :
    List (String × JVal) :=
  kvs.foldl (fun a p => setKey a p.1 p.2) acc

/-- The `for d in msg.get("args", []): args.update(d)` loop of the `to_`
branch (lines 119-120).  A non-dict element makes `dict.update` raise
TypeError (non-dict iterables of pairs are collapsed into the same
TypeError here; the source never receives them from its clients). -/
def mergeArgs : List (String × JVal) → List JVal → Except Exc (List (String × JVal))
  | acc, [] => .ok acc
  | acc, .obj o :: rest => mergeArgs (dictUpdate acc o.pairs) rest
  | _, _ => .error (.typeError updateNotMappingText)

def schemaMethods : List String := ["schema", "computed_schema", "get_computation_input_types"]

/-- `method.startswith("to_")`. -/
def isToMethod (mth : String) : Bool := mth.take 3 == sToPrefix

/-- Argument shaping, lines 113-122 of `_process_method_call`. -/
def shapeArgs (m : Msg) (mth : String) : Except Exc ShapedArgs :=
  if schemaMethods.contains mth then .ok (.kw [(sAsString, .boolv true)])
  else if isToMethod mth then
    match mergeArgs [] (m.args.getD []) with
    | .ok kvs => .ok (.kw kvs)
    | .error e => .error e
  else .ok (.pos (m.args.getD []))

/-- A resolved registry handle: a table entry (possibly the `[]`
placeholder) or a view. -/
inductive HandleRef where
  | tbl : String → TableEntry → HandleRef
  | vw : String → HandleRef

/-- `getattr(table_or_view, method)(*pos, **kw)`.  A `None` handle and the
`[]` placeholder raise AttributeError at the `getattr` itself, so no backend
method runs and no `Event.invoke` is recorded. -/
def invokeOn (bk : Backend) (h : Option HandleRef) (mth : String) (p : List JVal)
    (kw : List (String × JVal)) : List Event × Except Exc JVal :=
  match h with
  | none => ([], .error (.attributeError (noAttrMsg sNoneTypeCls mth)))
  | some (.tbl _ .placeholder) => ([], .error (.attributeError (noAttrMsg sListCls mth)))
  | some (.tbl nm .real) => ([Event.invoke .table nm mth p kw], bk.call .table nm mth p kw)
  | some (.vw nm) => ([Event.invoke .view nm mth p kw], bk.call .view nm mth p kw)

/-- `getattr(table_or_view, method)(callback, **kw)` for `on_*` methods. -/
def invokeSubOn (bk : Backend) (h : Option HandleRef) (mth : String)
    (kw : List (String × JVal)) : List Event × Except Exc Unit :=
  match h with
  | none => ([], .error (.attributeError (noAttrMsg sNoneTypeCls mth)))
  | some (.tbl _ .placeholder) => ([], .error (.attributeError (noAttrMsg sListCls mth)))
  | some (.tbl nm .real) => ([Event.invokeSub .table nm mth kw], bk.subCall .table nm mth kw)
  | some (.vw nm) => ([Event.invokeSub .view nm mth kw], bk.subCall .view nm mth kw)

/-- `_process_bytes` (lines 211-232): set `is_transferable` on the original
message, dump it with the plain `DateTimeEncoder` (`allow_nan` defaults to
True there), post it, then post the raw binary frame.  A TypeError from the
dump (bytes inside the message) propagates. -/
def processBytes (m : Msg) (bin : List Nat) : List Frame × Option Exc :=
  match encV true true (m.toJVal true) with
  | .ok v => ([.json v, .binary bin], none)
  | .error _ => ([], some (.typeError bytesTypeErrorText))

/-- Lines 152-155: wrap the call result in a success message and encode it;
an encoder exception propagates to the blanket handler. -/
def postResult (id result : JVal) : List Frame × Option Exc :=
  match messageToJson id (makeMessage id result) with
  | .ok v => ([.json v], none)
  | .error e => ([], some e)

/-- Result handling, lines 146-155: a bytes result not produced by `to_csv`
goes through the binary transfer protocol, everything else through a normal
success message. -/
def handleResult (m : Msg) (mth : String) (result : JVal) : List Frame × Option Exc :=
  match result with
  | .bytes bs =>
    if mth != sToCsv then processBytes m bs
    else postResult m.id (.bytes bs)
  | r => postResult m.id r

/-- Lines 136-138: the keyword options of an `update`/`remove` call — the
second positional argument when it exists and is a dict, `{}` otherwise. -/
def updateOpts : List JVal → List (String × JVal)
  | .obj o :: _ => o.pairs
  | _ => []

/-- Lines 130-145: the positional/keyword arguments the branch ladder hands
to `getattr(...)`.  `update`/`remove` read `args[0]`/`args[1]` from the
shaped `args` local — in those branches it is always the positional list;
a `table_method` `delete` reaches line 146 with `result` unassigned, which
raises UnboundLocalError. -/
def callSpec (m : Msg) (mth : String) (shaped : ShapedArgs) :
    Except Exc (List JVal × List (String × JVal)) :=
  if isToMethod mth then .ok ([], shaped.kwOf)
  else if mth == sUpdate || mth == sRemove then
    match shaped.posOf with
    | [] => .error (.indexError indexOutOfRangeText)
    | d :: rest => .ok ([d], updateOpts rest)
  else if mth == sComputedSchema || mth == sGetCompInputTypes then
    .ok (m.args.getD [], shaped.kwOf)
  else if mth != sDelete then .ok (shaped.posOf, [])
  else .error (.unboundLocal unboundResultText)

/-- The non-subscribe body of `_process_method_call` (lines 113-155), from
argument shaping to result handling; `raised` is the exception the blanket
`except Exception` will catch.  `nm` is the already-evaluated `msg["name"]`;
the view-delete branch nevertheless re-indexes `self._views[msg["name"]]`
directly, as the source does. -/
def methodCallBody (bk : Backend) (st : MState) (m : Msg) (nm : String)
    (h : Option HandleRef) : Step :=
  match m.method with
  | none => { st := st, frames := [], trace := [], raised := some (.keyError quotedMethod) }
  | some mth =>
    match shapeArgs m mth with
    | .error e => { st := st, frames := [], trace := [], raised := some e }
    | .ok shaped =>
      if mth == sDelete && m.cmd == sViewMethod then
        -- lines 124-128: self._views[name].delete(); self._views.pop(name, None); return
        match getKey st.views nm with
        | none => { st := st, frames := [], trace := [], raised := some (.keyError (pyQuote nm)) }
        | some _ =>
          match bk.call .view nm sDelete [] [] with
          | .ok _ =>
            { st := { st with views := delKey st.views nm },
              frames := [], trace := [Event.invoke .view nm sDelete [] []], raised := none }
          | .error e =>
            { st := st, frames := [],
              trace := [Event.invoke .view nm sDelete [] []], raised := some e }
      else
        match callSpec m mth shaped with
        | .error e => { st := st, frames := [], trace := [], raised := some e }
        | .ok (p, kw) =>
          match invokeOn bk h mth p kw with
          | (evs, .error e) => { st := st, frames := [], trace := evs, raised := some e }
          | (evs, .ok result) =>
            match handleResult m mth result with
            | (fs, r) => { st := st, frames := fs, trace := evs, raised := r }

/-- The blanket `except Exception` of `_process_method_call` (lines 156-158)
and `_process_subscribe` (lines 207-209): convert the pending exception of a
step into an error response for the same id; a failure of that
`_message_to_json` call itself escapes. -/
def catchStep (m : Msg) (b : Step) : Step :=
  match b.raised with
  | none => b
  | some e =>
    match messageToJson m.id (makeErrorMessage m.id e.str) with
    | .ok v => { st := b.st, frames := b.frames ++ [.json v], trace := b.trace, raised := none }
    | .error e2 => { st := b.st, frames := b.frames, trace := b.trace, raised := some e2 }

/-- The `except (PerspectiveError, PerspectiveCppError)` handler of
`_process` (lines 91-94): only those two exception types are converted. -/
def perspectiveCatch (m : Msg) (b : Step) : Step :=
  match b.raised with
  | none => b
  | some e =>
    if e.isPerspective then
      match messageToJson m.id (makeErrorMessage m.id e.str) with
      | .ok v => { st := b.st, frames := b.frames ++ [.json v], trace := b.trace, raised := none }
      | .error e2 => { st := b.st, frames := b.frames, trace := b.trace, raised := some e2 }
    else b

/-- The Callback Record stored by `_process_subscribe` (lines 183-188):
client id, callback id, the bound callback (identified by the message it
captured), and the handle's name. -/
def callbackRecord (cid : Option String) (c : JVal) (m : Msg) : CbRecord :=
  { clientId := cid, callbackId := c, name := m.name, msgId := m.id }

/-- `_process_subscribe` (lines 160-209).  The callback-cache operations are
modelled from the spec (§4.5): `add_callback` stores the record,
`remove_callbacks(pred)` removes every record satisfying the predicate — and
the source passes `lambda cb: cb["callback_id"] != callback_id`, so records
whose id does **not** equal the given one are removed. -/
def processSubscribe (bk : Backend) (st : MState) (m : Msg) (h : Option HandleRef)
    (cid : Option String) : Step :=
  let isOnMethod : Bool :=
    match m.method with
    | some mth => mth != "" && mth.take 2 == sOn
    | none => false
  let inner : MState × List Event × Option Exc :=
    if isOnMethod then
      match m.method with
      | some mth =>
        let afterCache : MState × List Event :=
          match m.callback_id with
          | some c =>
            if c.truthy then
              ({ st with callbacks := st.callbacks ++ [callbackRecord cid c m] },
                [Event.addCb (callbackRecord cid c m)])
            else (st, [])
          | none => (st, [])
        let invoked : List Event × Except Exc Unit :=
          if mth == sOnUpdate then
            match m.args.getD [] with
            | [] => invokeSubOn bk h mth [(sMode, .strv sNone)]
            | a :: _ =>
              match a with
              | .obj o => invokeSubOn bk h mth o.pairs
              | _ => ([], .error (.typeError kwargsNotMappingText))
          else invokeSubOn bk h mth []
        (afterCache.1, afterCache.2 ++ invoked.1,
          match invoked.2 with
          | .ok _ => none
          | .error e => some e)
      | none => (st, [], none)
    else
      match m.callback_id with
      | some c =>
        ({ st with callbacks := st.callbacks.filter (fun cb => JVal.beq cb.callbackId c) },
          [Event.removeCbs c], none)
      | none =>
        -- `logging.info("callback not found ...")`, no frame
        (st, [], none)
  catchStep m { st := inner.1, frames := [], trace := inner.2.1, raised := inner.2.2 }

/-- `_process_method_call` (lines 96-158): resolve the handle (posting the
"View is not initialized" error for an unresolved view — and then proceeding
anyway, as the source has no `return` there), run the subscribe or plain
body, and convert any exception from the body into an error response. -/
def processMethodCall (bk : Backend) (st : MState) (m : Msg) (cid : Option String) : Step :=
  match m.name with
  | none => { st := st, frames := [], trace := [], raised := some (.keyError quotedName) }
  | some nm =>
    let resolved : Option HandleRef × List Frame × Option Exc :=
      if m.cmd == sTableMethod then
        ((getKey st.tables nm).map (fun e => HandleRef.tbl nm e), [], none)
      else
        match getKey st.views nm with
        | some _ => (some (.vw nm), [], none)
        | none =>
          match messageToJson m.id (makeErrorMessage m.id viewNotInitText) with
          | .ok v => (none, [.json v], none)
          | .error e => (none, [], some e)
    match resolved with
    | (_, pre, some e) => { st := st, frames := pre, trace := [], raised := some e }
    | (h, pre, none) =>
      let body : Step :=
        catchStep m
          (if m.subscribe then processSubscribe bk st m h cid
           else methodCallBody bk st m nm h)
      { st := body.st, frames := pre ++ body.frames, trace := body.trace,
        raised := body.raised }

/-- The raw input of `_process`: the "heartbeat" string, a non-dict value
(raises `PerspectiveError`, lines 56-59), or a decoded message dict. -/
inductive InMsg where
  | heartbeat : InMsg
  | malformed : InMsg
  | dict : Msg → InMsg

/-- The lines 64-65 error text: the combined "cmd.method" label inside
backticks, then " failed - access denied". -/
def accessDeniedText (m : Msg) : String :=
  "\x60" ++ (m.cmd ++ (match m.method with | some mm => "." ++ mm | none => ""))
    ++ "\x60 failed - access denied"

/-- `_process` (lines 39-94): lock gate, then routing by `cmd`; only
`PerspectiveError`/`PerspectiveCppError` are caught at this level. -/
def process (bk : Backend) (st : MState) (im : InMsg) (cid : Option String) : Step :=
  match im with
  | .heartbeat => { st := st, frames := [], trace := [], raised := none }
  | .malformed => { st := st, frames := [], trace := [], raised := some (.perspective malformedText) }
  | .dict m =>
    if isLockedCommand st.lock m then
      -- lines 63-68; this `_message_to_json` call sits outside the try block
      match messageToJson m.id (makeErrorMessage m.id (accessDeniedText m)) with
      | .ok v => { st := st, frames := [.json v], trace := [], raised := none }
      | .error e => { st := st, frames := [], trace := [], raised := some e }
    else
      let body : Step :=
        if m.cmd == sInit then
          match messageToJson m.id (makeMessage m.id .null) with
          | .ok v => { st := st, frames := [.json v], trace := [], raised := none }
          | .error e => { st := st, frames := [], trace := [], raised := some e }
        else if m.cmd == sTable then
          -- lines 75-82; `msg["args"]` missing raises KeyError (only
          -- IndexError is caught by the inner handler)
          match m.args with
          | none => { st := st, frames := [], trace := [], raised := some (.keyError quotedArgs) }
          | some [] =>
            match m.name with
            | none => { st := st, frames := [], trace := [], raised := some (.keyError quotedName) }
            | some nm =>
              { st := { st with tables := setKey st.tables nm .placeholder },
                frames := [], trace := [Event.newTable nm], raised := none }
          | some (x :: _) =>
            match bk.tableNew x m.options with
            | .error e => { st := st, frames := [], trace := [], raised := some e }
            | .ok _ =>
              match m.name with
              | none => { st := st, frames := [], trace := [], raised := some (.keyError quotedName) }
              | some nm =>
                { st := { st with tables := setKey st.tables nm .real },
                  frames := [], trace := [Event.newTable nm], raised := none }
        else if m.cmd == sView then
          -- lines 83-88
          match m.table_name with
          | none => { st := st, frames := [], trace := [], raised := some (.keyError quotedTableName) }
          | some tn =>
            match getKey st.tables tn with
            | none => { st := st, frames := [], trace := [], raised := some (.keyError (pyQuote tn)) }
            | some .placeholder =>
              { st := st, frames := [], trace := [],
                raised := some (.attributeError (noAttrMsg sListCls sView)) }
            | some .real =>
              match bk.tableView tn m.config with
              | .error e => { st := st, frames := [], trace := [], raised := some e }
              | .ok _ =>
                match m.view_name with
                | none => { st := st, frames := [], trace := [], raised := some (.keyError quotedViewName) }
                | some vn =>
                  { st := { st with views := setKey st.views vn { clientId := cid } },
                    frames := [], trace := [Event.newView tn vn], raised := none }
        else if m.cmd == sTableMethod || m.cmd == sViewMethod then
          processMethodCall bk st m cid
        else { st := st, frames := [], trace := [], raised := none }
      perspectiveCatch m body

/-! Predicates used by the theorem statements. -/

/-- A JSON frame correlated to the request id: its top-level "id" key holds
that id (binary continuation frames carry no id by protocol design). -/
def frameCorrelated (id : JVal) : Frame → Prop
  | .binary _ => True
  | .json v => getId v = some id

/-- Every frame of the list is correlated to `id`. -/
def framesCorrelated (id : JVal) (fs : List Frame) : Prop :=
  ∀ f ∈ fs, frameCorrelated id f

/-- A backend invocation of `delete` on a table handle. -/
def tableDeleteEvent : Event → Prop
  | .invoke .table _ mth _ _ => mth = sDelete
  | .invokeSub .table _ mth _ => mth = sDelete
  | _ => False

/-- The handle `_process_method_call` resolves for a registered real table
(resp. view) named `nm`. -/
def handleFor : HKind → String → HandleRef
  | .table, nm => .tbl nm .real
  | .view, nm => .vw nm

/-- The handle lines 100-103 resolve: the table registry entry for a
table_method, the view registry entry otherwise. -/
def resolveHandle (st : MState) (m : Msg) (nm : String) : Option HandleRef :=
  if m.cmd == sTableMethod then
    (getKey st.tables nm).map (fun e => HandleRef.tbl nm e)
  else (getKey st.views nm).map (fun _ => HandleRef.vw nm)

/-- The message's command resolves `nm` to a real handle of kind `k`. -/
def resolvesTo (st : MState) (m : Msg) (nm : String) : HKind → Prop
  | .table => m.cmd = sTableMethod ∧ getKey st.tables nm = some TableEntry.real
  | .view => m.cmd = sViewMethod ∧ (∃ ve, getKey st.views nm = some ve)

/-! Concrete inputs used by witnesses and counterexamples. -/

def bkOk : Backend :=
  { tableNew := fun _ _ => .ok ()
    tableView := fun _ _ => .ok ()
    call := fun _ _ _ _ _ => .ok .null
    subCall := fun _ _ _ _ => .ok () }

def bkBytes : Backend :=
  { tableNew := fun _ _ => .ok ()
    tableView := fun _ _ => .ok ()
    call := fun _ _ _ _ _ => .ok (.bytes [9, 9])
    subCall := fun _ _ _ _ => .ok () }

def bkCsv : Backend :=
  { tableNew := fun _ _ => .ok ()
    tableView := fun _ _ => .ok ()
    call := fun _ _ _ _ _ => .ok (.strv "a,b")
    subCall := fun _ _ _ _ => .ok () }

def tKey : String := "t"
def nKey : String := "nope"
def sToArrow : String := "to_arrow"
def sReplace : String := "replace"
def sClear : String := "clear"

def st0 : MState := { lock := false, tables := [], views := [], callbacks := [] }
def stT : MState :=
  { lock := false, tables := [(tKey, TableEntry.real)], views := [], callbacks := [] }
def stL : MState := { lock := true, tables := [], views := [], callbacks := [] }

/-- `{id: 1, cmd: "table", name: "t", args: [{"a": "integer"}]}`. -/
def msgT : Msg :=
  { id := .intv 1, cmd := sTable, name := some tKey,
    args := some [.obj (JObj.ofList [("a", JVal.strv "integer")])] }

/-- A locked manager sees `{cmd: "view_method", method: "table"}`. -/
def msg2 : Msg :=
  { id := .intv 2, cmd := sViewMethod, name := some tKey, method := some sTable }

/-- `view_method` `schema` on an unregistered view name. -/
def msg3 : Msg :=
  { id := .intv 3, cmd := sViewMethod, name := some nKey, method := some sSchema }

/-- `table_method` `schema` with a supplied positional argument. -/
def msg5 : Msg :=
  { id := .intv 5, cmd := sTableMethod, name := some tKey, method := some sSchema,
    args := some [.intv 42] }

/-- `table_method` `computed_schema` with a supplied positional argument. -/
def msg5b : Msg :=
  { id := .intv 55, cmd := sTableMethod, name := some tKey,
    method := some sComputedSchema, args := some [.intv 42] }

/-- `update` with a non-dict second positional argument. -/
def msg6 : Msg :=
  { id := .intv 6, cmd := sTableMethod, name := some tKey, method := some sUpdate,
    args := some [.arr .nil, .intv 5] }

/-- An export method returning raw bytes. -/
def msg7 : Msg :=
  { id := .intv 7, cmd := sTableMethod, name := some tKey, method := some sToArrow }

/-- `table_method` `delete`. -/
def msgDel : Msg :=
  { id := .intv 8, cmd := sTableMethod, name := some tKey, method := some sDelete }

/-- A subscribe message for `on_update` with a callback id, against an
unregistered view. -/
def msg9 : Msg :=
  { id := .intv 9, cmd := sViewMethod, name := some nKey, method := some sOnUpdate,
    subscribe := true, callback_id := some (.intv 7) }

/-- `to_csv` (string result expected). -/
def msgCsv : Msg :=
  { id := .intv 10, cmd := sTableMethod, name := some tKey, method := some sToCsv }

/-- `table_method` on an unregistered table name. -/
def msg10 : Msg :=
  { id := .intv 4, cmd := sTableMethod, name := some nKey, method := some sSchema }

def vKey : String := "v"

/-- A state with one registered view named "v". -/
def stV : MState :=
  { lock := false, tables := [], views := [(vKey, { clientId := none })], callbacks := [] }

/-- A subscribe message for `on_update` whose supplied callback_id is the
falsy value 0. -/
def msg9z : Msg :=
  { id := .intv 12, cmd := sViewMethod, name := some vKey, method := some sOnUpdate,
    subscribe := true, callback_id := some (.intv 0) }

/-! Supporting lemmas about the codec. -/

theorem encV_idSimple (an dt : Bool) (id : JVal) (h : id.idSimple = true) :
    encV an dt id = .ok id := by
  cases id <;> first | rfl | simp [JVal.idSimple] at h

theorem encV_makeError (an dt : Bool) (id : JVal) (s : String) (h : id.idSimple = true) :
    encV an dt (makeErrorMessage id s) = .ok (makeErrorMessage id s) := by
  cases id <;> first | rfl | simp [JVal.idSimple] at h

theorem getId_makeError (id : JVal) (s : String) :
    getId (makeErrorMessage id s) = some id := rfl

theorem getId_makeMessage (id r : JVal) : getId (makeMessage id r) = some id := rfl

theorem messageToJson_err_ok (id : JVal) (s : String) (h : id.idSimple = true) :
    messageToJson id (makeErrorMessage id s) = .ok (makeErrorMessage id s) := by
  cases id <;> first | rfl | simp [JVal.idSimple] at h

theorem getId_of_encV (an dt : Bool) (id : JVal) (rest : JObj) (v : JVal)
    (h : id.idSimple = true)
    (hv : encV an dt (.obj (.cons idKey id rest)) = .ok v) : getId v = some id := by
  have hid := encV_idSimple an dt id h
  cases hrest : encO an dt rest with
  | ok r2 =>
    simp [encV, encO, hid, hrest] at hv
    subst hv
    simp [getId, JObj.lookup]
  | error e =>
    simp [encV, encO, hid, hrest] at hv

theorem getId_of_messageToJson (id : JVal) (rest : JObj) (v : JVal)
    (h : id.idSimple = true)
    (hv : messageToJson id (.obj (.cons idKey id rest)) = .ok v) :
    getId v = some id := by
  unfold messageToJson at hv
  cases henc : encV false true (.obj (.cons idKey id rest)) with
  | ok w =>
    rw [henc] at hv
    simp at hv
    subst hv
    exact getId_of_encV false true id rest w h henc
  | error e =>
    rw [henc] at hv
    cases e with
    | typeErr => simp at hv
    | valueErr =>
      simp only [] at hv
      rw [encV_makeError true false id _ h] at hv
      simp at hv
      subst hv
      exact getId_makeError id _

mutual

theorem encV_classify : ∀ v : JVal, v.noBytes = true →
    (v.hasNonFinite = true ∧ encV false true v = .error .valueErr) ∨
    (v.hasNonFinite = false ∧ ∃ w, encV false true v = .ok w)
  | .null, _ => .inr ⟨rfl, _, rfl⟩
  | .boolv b, _ => .inr ⟨rfl, _, rfl⟩
  | .intv n, _ => .inr ⟨rfl, _, rfl⟩
  | .nan, _ => .inl ⟨rfl, rfl⟩
  | .inf, _ => .inl ⟨rfl, rfl⟩
  | .ninf, _ => .inl ⟨rfl, rfl⟩
  | .strv s, _ => .inr ⟨rfl, _, rfl⟩
  | .bytes bs, h => by simp [JVal.noBytes] at h
  | .datetime ts, _ => .inr ⟨rfl, _, rfl⟩
  | .arr xs, h => by
    rcases encL_classify xs (by simpa [JVal.noBytes] using h) with ⟨h1, h2⟩ | ⟨h1, w, h2⟩
    · exact .inl ⟨by simpa [JVal.hasNonFinite] using h1, by simp [encV, h2]⟩
    · exact .inr ⟨by simpa [JVal.hasNonFinite] using h1, JVal.arr w, by simp [encV, h2]⟩
  | .obj o, h => by
    rcases encO_classify o (by simpa [JVal.noBytes] using h) with ⟨h1, h2⟩ | ⟨h1, w, h2⟩
    · exact .inl ⟨by simpa [JVal.hasNonFinite] using h1, by simp [encV, h2]⟩
    · exact .inr ⟨by simpa [JVal.hasNonFinite] using h1, JVal.obj w, by simp [encV, h2]⟩

theorem encL_classify : ∀ xs : JList, xs.noBytes = true →
    (xs.hasNonFinite = true ∧ encL false true xs = .error .valueErr) ∨
    (xs.hasNonFinite = false ∧ ∃ ys, encL false true xs = .ok ys)
  | .nil, _ => .inr ⟨rfl, _, rfl⟩
  | .cons x xs, h => by
    have hx : x.noBytes = true := by
      have := h; simp [JList.noBytes, Bool.and_eq_true] at this; exact this.1
    have hxs : xs.noBytes = true := by
      have := h; simp [JList.noBytes, Bool.and_eq_true] at this; exact this.2
    rcases encV_classify x hx with ⟨h1, h2⟩ | ⟨h1, w, h2⟩
    · exact .inl ⟨by simp [JList.hasNonFinite, h1], by simp [encL, h2]⟩
    · rcases encL_classify xs hxs with ⟨h3, h4⟩ | ⟨h3, ys, h4⟩
      · exact .inl ⟨by simp [JList.hasNonFinite, h3], by simp [encL, h2, h4]⟩
      · exact .inr ⟨by simp [JList.hasNonFinite, h1, h3], JList.cons w ys, by simp [encL, h2, h4]⟩

theorem encO_classify : ∀ o : JObj, o.noBytes = true →
    (o.hasNonFinite = true ∧ encO false true o = .error .valueErr) ∨
    (o.hasNonFinite = false ∧ ∃ o2, encO false true o = .ok o2)
  | .nil, _ => .inr ⟨rfl, _, rfl⟩
  | .cons k v r, h => by
    have hv : v.noBytes = true := by
      have := h; simp [JObj.noBytes, Bool.and_eq_true] at this; exact this.1
    have hr : r.noBytes = true := by
      have := h; simp [JObj.noBytes, Bool.and_eq_true] at this; exact this.2
    rcases encV_classify v hv with ⟨h1, h2⟩ | ⟨h1, w, h2⟩
    · exact .inl ⟨by simp [JObj.hasNonFinite, h1], by simp [encO, h2]⟩
    · rcases encO_classify r hr with ⟨h3, h4⟩ | ⟨h3, o2, h4⟩
      · exact .inl ⟨by simp [JObj.hasNonFinite, h3], by simp [encO, h2, h4]⟩
      · exact .inr ⟨by simp [JObj.hasNonFinite, h1, h3], JObj.cons k w o2, by simp [encO, h2, h4]⟩

end

/-! Reduction lemmas for the dispatcher. -/

theorem isLockedCommand_false (m : Msg) : isLockedCommand false m = false := rfl

theorem catchStep_none (m : Msg) (b : Step) (h : b.raised = none) : catchStep m b = b := by
  unfold catchStep; rw [h]

theorem catchStep_some (m : Msg) (b : Step) (e : Exc) (hid : m.id.idSimple = true)
    (h : b.raised = some e) :
    catchStep m b =
      { st := b.st, frames := b.frames ++ [.json (makeErrorMessage m.id (Exc.str e))],
        trace := b.trace, raised := none } := by
  unfold catchStep
  simp only [h]
  rw [messageToJson_err_ok m.id (Exc.str e) hid]

theorem perspectiveCatch_none (m : Msg) (b : Step) (h : b.raised = none) :
    perspectiveCatch m b = b := by
  unfold perspectiveCatch; rw [h]

theorem process_method (bk : Backend) (st : MState) (m : Msg) (cid : Option String)
    (hlock : st.lock = false) (hcmd : m.cmd = sTableMethod ∨ m.cmd = sViewMethod) :
    process bk st (.dict m) cid = perspectiveCatch m (processMethodCall bk st m cid) := by
  obtain ⟨lk, tb, vw, cb⟩ := st
  obtain ⟨mid, mcmd, mname, mtn, mvn, mmeth, margs, mopts, mcfg, msub, mcbid⟩ := m
  have hlk : lk = false := hlock
  subst hlk
  rcases hcmd with hc | hc <;> (have hcc : mcmd = _ := hc; subst hcc; rfl)

theorem methodCallBody_none (bk : Backend) (st : MState) (m : Msg) (nm : String)
    (hv : m.cmd = sViewMethod → getKey st.views nm = none) :
    ∃ e : Exc, methodCallBody bk st m nm none =
      { st := st, frames := [], trace := [], raised := some e } := by
  unfold methodCallBody
  cases hm : m.method with
  | none => exact ⟨.keyError quotedMethod, rfl⟩
  | some mth =>
    cases hsh : shapeArgs m mth with
    | error e => exact ⟨e, by simp [hsh]⟩
    | ok shaped =>
      by_cases hdel : (mth == sDelete && m.cmd == sViewMethod) = true
      · have hcv : m.cmd = sViewMethod := by
          have h2 := (Bool.and_eq_true _ _).mp hdel
          exact eq_of_beq h2.2
        refine ⟨.keyError (pyQuote nm), ?_⟩
        simp [hsh, hdel, hv hcv]
      · cases hspec : callSpec m mth shaped with
        | error e => exact ⟨e, by simp [hsh, hdel, hspec]⟩
        | ok pk =>
          obtain ⟨p, kw⟩ := pk
          exact ⟨.attributeError (noAttrMsg sNoneTypeCls mth),
            by simp [hsh, hdel, hspec, invokeOn]⟩

theorem processMethodCall_viewMissing (bk : Backend) (st : MState) (m : Msg)
    (cid : Option String) (nm : String)
    (hn : m.name = some nm) (hc : m.cmd = sViewMethod) (hmv : getKey st.views nm = none)
    (hid : m.id.idSimple = true) (hs : m.subscribe = false) :
    ∃ e : Exc, processMethodCall bk st m cid =
      { st := st,
        frames := [.json (makeErrorMessage m.id viewNotInitText),
                   .json (makeErrorMessage m.id (Exc.str e))],
        trace := [], raised := none } := by
  obtain ⟨e, hbody⟩ := methodCallBody_none bk st m nm (fun _ => hmv)
  refine ⟨e, ?_⟩
  simp [processMethodCall, catchStep, hn, hc, hmv, hs, hbody,
    messageToJson_err_ok, hid, (by decide : sViewMethod ≠ sTableMethod)]

theorem processMethodCall_tableMissing (bk : Backend) (st : MState) (m : Msg)
    (cid : Option String) (nm : String)
    (hn : m.name = some nm) (hc : m.cmd = sTableMethod) (hmt : getKey st.tables nm = none)
    (hid : m.id.idSimple = true) (hs : m.subscribe = false) :
    ∃ e : Exc, processMethodCall bk st m cid =
      { st := st, frames := [.json (makeErrorMessage m.id (Exc.str e))],
        trace := [], raised := none } := by
  have hnv : m.cmd = sViewMethod → getKey st.views nm = none := by
    intro h2
    rw [hc] at h2
    exact absurd h2 (by decide)
  obtain ⟨e, hbody⟩ := methodCallBody_none bk st m nm hnv
  refine ⟨e, ?_⟩
  simp [processMethodCall, catchStep, hn, hc, hmt, hs, hbody,
    messageToJson_err_ok, hid]

theorem processMethodCall_resolved (bk : Backend) (st : MState) (m : Msg)
    (cid : Option String) (nm : String) (k : HKind)
    (hn : m.name = some nm) (hr : resolvesTo st m nm k) :
    processMethodCall bk st m cid =
      catchStep m
        (if m.subscribe then processSubscribe bk st m (some (handleFor k nm)) cid
         else methodCallBody bk st m nm (some (handleFor k nm))) := by
  cases k with
  | table =>
    obtain ⟨hc, ht⟩ := hr
    simp [processMethodCall, hn, hc, ht, handleFor]
  | view =>
    obtain ⟨hc, ve, hv⟩ := hr
    simp [processMethodCall, hn, hc, hv, handleFor,
      (by decide : sViewMethod ≠ sTableMethod)]

theorem catchStep_trace (m : Msg) (b : Step) : (catchStep m b).trace = b.trace := by
  cases hb : b.raised with
  | none => simp [catchStep, hb]
  | some e =>
    simp only [catchStep, hb]
    cases messageToJson m.id (makeErrorMessage m.id e.str) <;> rfl

theorem catchStep_st (m : Msg) (b : Step) : (catchStep m b).st = b.st := by
  cases hb : b.raised with
  | none => simp [catchStep, hb]
  | some e =>
    simp only [catchStep, hb]
    cases messageToJson m.id (makeErrorMessage m.id e.str) <;> rfl

theorem perspectiveCatch_trace (m : Msg) (b : Step) :
    (perspectiveCatch m b).trace = b.trace := by
  cases hb : b.raised with
  | none => simp [perspectiveCatch, hb]
  | some e =>
    simp only [perspectiveCatch, hb]
    cases he : e.isPerspective with
    | false => simp [he]
    | true =>
      simp only [he, if_true]
      cases messageToJson m.id (makeErrorMessage m.id e.str) <;> rfl

theorem perspectiveCatch_st (m : Msg) (b : Step) :
    (perspectiveCatch m b).st = b.st := by
  cases hb : b.raised with
  | none => simp [perspectiveCatch, hb]
  | some e =>
    simp only [perspectiveCatch, hb]
    cases he : e.isPerspective with
    | false => simp [he]
    | true =>
      simp only [he, if_true]
      cases messageToJson m.id (makeErrorMessage m.id e.str) <;> rfl

theorem resolvesTo_cmd (st : MState) (m : Msg) (nm : String) (k : HKind)
    (hr : resolvesTo st m nm k) : m.cmd = sTableMethod ∨ m.cmd = sViewMethod := by
  cases k with
  | table => exact .inl hr.1
  | view => exact .inr hr.1

theorem process_resolved (bk : Backend) (st : MState) (m : Msg) (cid : Option String)
    (nm : String) (k : HKind)
    (hlock : st.lock = false) (hn : m.name = some nm) (hr : resolvesTo st m nm k) :
    process bk st (.dict m) cid =
      perspectiveCatch m (catchStep m
        (if m.subscribe then processSubscribe bk st m (some (handleFor k nm)) cid
         else methodCallBody bk st m nm (some (handleFor k nm)))) := by
  rw [process_method bk st m cid hlock (resolvesTo_cmd st m nm k hr),
    processMethodCall_resolved bk st m cid nm k hn hr]

theorem methodCallBody_trace (bk : Backend) (st : MState) (m : Msg) (nm : String)
    (k : HKind) (mth : String) (shaped : ShapedArgs) (p : List JVal)
    (kw : List (String × JVal))
    (hm : m.method = some mth) (hsh : shapeArgs m mth = .ok shaped)
    (hnd : (mth == sDelete && m.cmd == sViewMethod) = false)
    (hspec : callSpec m mth shaped = .ok (p, kw)) :
    (methodCallBody bk st m nm (some (handleFor k nm))).trace =
      [Event.invoke k nm mth p kw] := by
  cases k with
  | table =>
    cases hcall : bk.call .table nm mth p kw <;>
      simp [methodCallBody, hm, hsh, hnd, hspec, invokeOn, handleFor, hcall]
  | view =>
    cases hcall : bk.call .view nm mth p kw <;>
      simp [methodCallBody, hm, hsh, hnd, hspec, invokeOn, handleFor, hcall]

/-! Claim theorems. -/

/-- Claim C2 counterexample: with the manager locked, the message
`{cmd: "view_method", method: "table"}` is blocked even though it is not the
table command, not a table_method delete, and its method name is not in
{update, remove, replace, clear} — because `LOCKED_COMMANDS` also contains
the literal "table", which the membership test applies to method names. -/
theorem C2_counterexample :
    isLockedCommand true msg2 = true ∧
    msg2.cmd = sViewMethod ∧ msg2.method = some sTable ∧
    sTable ∉ ([sUpdate, sRemove, sReplace, sClear] : List String) ∧
    sViewMethod ≠ sTable ∧ ¬(msg2.cmd = sTableMethod ∧ msg2.method = some sDelete) := by
  decide

/-- Claim C2 (amended): when unlocked the gate always returns false; when
locked it returns true exactly for the table command, a table_method delete,
and any message whose method name is in LOCKED_COMMANDS = {table, update,
remove, replace, clear} (the literal "table" included); a blocked message is
answered with the access-denied error for the combined "cmd.method" label,
before any registry or backend activity, leaving the state unchanged. -/
theorem C2_lockGate :
    (∀ m : Msg, isLockedCommand false m = false)
    ∧ (∀ m : Msg, isLockedCommand true m =
        ((m.cmd == sTableMethod && m.method == some sDelete) || m.cmd == sTable ||
          (match m.method with
           | some mm => LOCKED_COMMANDS.contains mm
           | none => false)))
    ∧ (∀ (bk : Backend) (st : MState) (m : Msg) (cid : Option String),
        m.id.idSimple = true → isLockedCommand st.lock m = true →
        process bk st (.dict m) cid =
          { st := st, frames := [.json (makeErrorMessage m.id (accessDeniedText m))],
            trace := [], raised := none }) := by
  refine ⟨fun m => rfl, fun m => ?_, fun bk st m cid hid hl => ?_⟩
  · unfold isLockedCommand
    by_cases hd : (m.cmd == sTableMethod && m.method == some sDelete) = true
    · simp [hd]
    · simp only [Bool.not_eq_true] at hd
      simp [hd]
  · simp [process, hl, messageToJson_err_ok, hid]

theorem C2_lockGate_witness :
    process bkOk stL (.dict msgT) none =
      { st := stL, frames := [.json (makeErrorMessage msgT.id (accessDeniedText msgT))],
        trace := [], raised := none } :=
  C2_lockGate.2.2 bkOk stL msgT none rfl rfl

/-- Claim C3 counterexample: for `{id: 3, cmd: "view_method", name: "nope",
method: "schema"}` with no view registered under "nope", the dispatcher posts
the "View is not initialized" error AND THEN a second error response for the
same id (there is no `return` after the first), so it does proceed. -/
theorem C3_counterexample :
    (process bkOk st0 (.dict msg3) none).frames =
      [.json (makeErrorMessage (.intv 3) viewNotInitText),
       .json (makeErrorMessage (.intv 3) (noAttrMsg sNoneTypeCls sSchema))] := rfl

/-- Claim C3 (amended): for every non-subscribe view_method message whose
view name does not resolve, the dispatcher responds with the "View is not
initialized" error but then proceeds with a `None` handle: no backend call
occurs (the event trace is empty), and the invocation failure produces a
second, generic error response for the same message id. -/
theorem C3_viewMissing :
    ∀ (bk : Backend) (st : MState) (m : Msg) (cid : Option String) (nm : String),
    m.id.idSimple = true → st.lock = false → m.cmd = sViewMethod →
    m.subscribe = false → m.name = some nm → getKey st.views nm = none →
    ∃ e : Exc,
      process bk st (.dict m) cid =
        { st := st,
          frames := [.json (makeErrorMessage m.id viewNotInitText),
                     .json (makeErrorMessage m.id (Exc.str e))],
          trace := [], raised := none } := by
  intro bk st m cid nm hid hlock hc hs hn hv
  obtain ⟨e, hpmc⟩ := processMethodCall_viewMissing bk st m cid nm hn hc hv hid hs
  refine ⟨e, ?_⟩
  rw [process_method bk st m cid hlock (.inr hc), hpmc]
  exact perspectiveCatch_none m _ rfl

theorem C3_viewMissing_witness :
    ∃ e : Exc,
      process bkOk st0 (.dict msg3) none =
        { st := st0,
          frames := [.json (makeErrorMessage msg3.id viewNotInitText),
                     .json (makeErrorMessage msg3.id (Exc.str e))],
          trace := [], raised := none } :=
  C3_viewMissing bkOk st0 msg3 none nKey rfl rfl rfl rfl rfl rfl

/-- Claim C10: for every non-subscribe table_method message whose table name
is not registered, no dedicated "not initialized" error is emitted; the
dispatcher proceeds with a `None` handle, no backend call occurs (empty
event trace), and the only response is a single generic {id, error} built
from the text of the exception raised during invocation. -/
theorem C10_tableMissing :
    ∀ (bk : Backend) (st : MState) (m : Msg) (cid : Option String) (nm : String),
    m.id.idSimple = true → st.lock = false → m.cmd = sTableMethod →
    m.subscribe = false → m.name = some nm → getKey st.tables nm = none →
    ∃ e : Exc,
      process bk st (.dict m) cid =
        { st := st, frames := [.json (makeErrorMessage m.id (Exc.str e))],
          trace := [], raised := none } := by
  intro bk st m cid nm hid hlock hc hs hn ht
  obtain ⟨e, hpmc⟩ := processMethodCall_tableMissing bk st m cid nm hn hc ht hid hs
  refine ⟨e, ?_⟩
  rw [process_method bk st m cid hlock (.inl hc), hpmc]
  exact perspectiveCatch_none m _ rfl

theorem C10_tableMissing_witness :
    ∃ e : Exc,
      process bkOk st0 (.dict msg10) none =
        { st := st0, frames := [.json (makeErrorMessage msg10.id (Exc.str e))],
          trace := [], raised := none } :=
  C10_tableMissing bkOk st0 msg10 none nKey rfl rfl rfl rfl rfl rfl

theorem process_trace_resolved (bk : Backend) (st : MState) (m : Msg)
    (cid : Option String) (nm : String) (k : HKind)
    (hlock : st.lock = false) (hn : m.name = some nm) (hr : resolvesTo st m nm k)
    (hs : m.subscribe = false) :
    (process bk st (.dict m) cid).trace =
      (methodCallBody bk st m nm (some (handleFor k nm))).trace := by
  rw [process_resolved bk st m cid nm k hlock hn hr, perspectiveCatch_trace,
    catchStep_trace]
  simp [hs]

/-- Claim C5 counterexample: `{cmd: "table_method", name: "t",
method: "schema", args: [42]}` against a registered table invokes the
backend with the single positional argument "as_string" (the key of the
splatted kwargs dict) and NO keyword arguments; the supplied positional
argument 42 is dropped, contradicting "invoked with a keyword flag
as_string=True ... merged with any supplied positional arguments". -/
theorem C5_counterexample :
    (process bkOk stT (.dict msg5) none).trace =
      [Event.invoke .table tKey sSchema [.strv sAsString] []] ∧
    msg5.args = some [.intv 42] ∧
    ∀ p kw, Event.invoke .table tKey sSchema p kw ∈ (process bkOk stT (.dict msg5) none).trace →
      (sAsString, JVal.boolv true) ∉ kw ∧ JVal.intv 42 ∉ p := by
  refine ⟨rfl, rfl, ?_⟩
  have ht : (process bkOk stT (.dict msg5) none).trace =
      [Event.invoke .table tKey sSchema [.strv sAsString] []] := rfl
  intro p kw hmem
  rw [ht] at hmem
  simp only [List.mem_singleton] at hmem
  injection hmem with _ _ _ hp hkw
  subst hp
  subst hkw
  refine ⟨by simp, by simp⟩

/-- Claim C5 (amended): for non-subscribe method calls with method name
computed_schema or get_computation_input_types, the backend is invoked with
the keyword flag as_string=True merged with the supplied positional
arguments; for method name schema, however, the kwargs dict is splatted
positionally (`f(*args)` on a dict passes its keys), so the backend receives
the single positional argument "as_string", no keyword flag, and the
supplied positional arguments are dropped. -/
theorem C5_schemaFlag :
    (∀ (bk : Backend) (st : MState) (m : Msg) (cid : Option String) (nm : String)
        (k : HKind) (mth : String),
        st.lock = false → m.subscribe = false → m.name = some nm →
        resolvesTo st m nm k → m.method = some mth →
        (mth = sComputedSchema ∨ mth = sGetCompInputTypes) →
        (process bk st (.dict m) cid).trace =
          [Event.invoke k nm mth (m.args.getD []) [(sAsString, .boolv true)]])
    ∧ (∀ (bk : Backend) (st : MState) (m : Msg) (cid : Option String) (nm : String)
        (k : HKind),
        st.lock = false → m.subscribe = false → m.name = some nm →
        resolvesTo st m nm k → m.method = some sSchema →
        (process bk st (.dict m) cid).trace =
          [Event.invoke k nm sSchema [.strv sAsString] []]) := by
  constructor
  · intro bk st m cid nm k mth hlock hs hn hr hm hmm
    rw [process_trace_resolved bk st m cid nm k hlock hn hr hs]
    rcases hmm with h | h <;> subst h <;>
      exact methodCallBody_trace bk st m nm k _ _ _ _ hm rfl rfl rfl
  · intro bk st m cid nm k hlock hs hn hr hm
    rw [process_trace_resolved bk st m cid nm k hlock hn hr hs]
    exact methodCallBody_trace bk st m nm k _ _ _ _ hm rfl rfl rfl

theorem C5_schemaFlag_witness :
    (process bkOk stT (.dict msg5b) none).trace =
      [Event.invoke .table tKey sComputedSchema (msg5b.args.getD [])
        [(sAsString, .boolv true)]] :=
  C5_schemaFlag.1 bkOk stT msg5b none tKey .table sComputedSchema rfl rfl rfl
    ⟨rfl, rfl⟩ rfl (.inl rfl)

/-- Claim C6: a non-subscribe update/remove call passes the first element of
args as the single positional argument and the second element's pairs as
keyword options exactly when that second element is a dict; a non-dict
second element yields empty options (`updateOpts`), and the call still
happens (no exception from the ignored argument). -/
theorem C6_updateArgs :
    (∀ (bk : Backend) (st : MState) (m : Msg) (cid : Option String) (nm : String)
        (k : HKind) (mth : String) (d : JVal) (rest : List JVal),
        st.lock = false → m.subscribe = false → m.name = some nm →
        resolvesTo st m nm k → m.method = some mth →
        (mth = sUpdate ∨ mth = sRemove) → m.args = some (d :: rest) →
        (process bk st (.dict m) cid).trace =
          [Event.invoke k nm mth [d] (updateOpts rest)])
    ∧ (∀ (y : JVal) (rest2 : List JVal), y.isObj = false → updateOpts (y :: rest2) = []) := by
  constructor
  · intro bk st m cid nm k mth d rest hlock hs hn hr hm hmm hargs
    rw [process_trace_resolved bk st m cid nm k hlock hn hr hs]
    rcases hmm with h | h <;> subst h
    · have hsh : shapeArgs m sUpdate = .ok (.pos (d :: rest)) := by
        have h0 : shapeArgs m sUpdate = .ok (.pos (m.args.getD [])) := rfl
        rw [h0, hargs]
        rfl
      exact methodCallBody_trace bk st m nm k _ _ _ _ hm hsh rfl rfl
    · have hsh : shapeArgs m sRemove = .ok (.pos (d :: rest)) := by
        have h0 : shapeArgs m sRemove = .ok (.pos (m.args.getD [])) := rfl
        rw [h0, hargs]
        rfl
      exact methodCallBody_trace bk st m nm k _ _ _ _ hm hsh rfl rfl
  · intro y rest2 hy
    cases y <;> first | rfl | simp [JVal.isObj] at hy

theorem C6_updateArgs_witness :
    (process bkOk stT (.dict msg6) none).trace =
      [Event.invoke .table tKey sUpdate [.arr .nil] (updateOpts [.intv 5])] ∧
    updateOpts [.intv 5] = [] :=
  ⟨C6_updateArgs.1 bkOk stT msg6 none tKey .table sUpdate (.arr .nil) [.intv 5]
      rfl rfl rfl ⟨rfl, rfl⟩ rfl (.inl rfl) rfl,
    C6_updateArgs.2 (.intv 5) [] rfl⟩

mutual

theorem encV_wireOk : ∀ v : JVal, v.wireOk = true → encV true true v = .ok v
  | .null, _ => rfl
  | .boolv b, _ => rfl
  | .intv n, _ => rfl
  | .nan, _ => rfl
  | .inf, _ => rfl
  | .ninf, _ => rfl
  | .strv s, _ => rfl
  | .bytes bs, h => by simp [JVal.wireOk] at h
  | .datetime ts, h => by simp [JVal.wireOk] at h
  | .arr xs, h => by
    have h2 := encL_wireOk xs (by simpa [JVal.wireOk] using h)
    simp [encV, h2]
  | .obj o, h => by
    have h2 := encO_wireOk o (by simpa [JVal.wireOk] using h)
    simp [encV, h2]

theorem encL_wireOk : ∀ xs : JList, xs.wireOk = true → encL true true xs = .ok xs
  | .nil, _ => rfl
  | .cons x xs, h => by
    have h0 : x.wireOk = true ∧ xs.wireOk = true := by
      have := h; simpa [JList.wireOk, Bool.and_eq_true] using this
    simp [encL, encV_wireOk x h0.1, encL_wireOk xs h0.2]

theorem encO_wireOk : ∀ o : JObj, o.wireOk = true → encO true true o = .ok o
  | .nil, _ => rfl
  | .cons k v r, h => by
    have h0 : v.wireOk = true ∧ r.wireOk = true := by
      have := h; simpa [JObj.wireOk, Bool.and_eq_true] using this
    simp [encO, encV_wireOk v h0.1, encO_wireOk r h0.2]

end

theorem methodCallBody_invoke_eq (bk : Backend) (st : MState) (m : Msg) (nm : String)
    (k : HKind) (mth : String) (shaped : ShapedArgs) (p : List JVal)
    (kw : List (String × JVal)) (r : JVal)
    (hm : m.method = some mth) (hsh : shapeArgs m mth = .ok shaped)
    (hnd : (mth == sDelete && m.cmd == sViewMethod) = false)
    (hspec : callSpec m mth shaped = .ok (p, kw))
    (hcall : bk.call k nm mth p kw = .ok r) :
    methodCallBody bk st m nm (some (handleFor k nm)) =
      { st := st, frames := (handleResult m mth r).1,
        trace := [Event.invoke k nm mth p kw], raised := (handleResult m mth r).2 } := by
  cases k <;> simp [methodCallBody, hm, hsh, hnd, hspec, invokeOn, handleFor, hcall]

theorem messageToJson_make_str (id : JVal) (s : String) (hid : id.idSimple = true) :
    messageToJson id (makeMessage id (.strv s)) = .ok (makeMessage id (.strv s)) := by
  cases id <;> first | rfl | simp [JVal.idSimple] at hid

theorem process_body_resolved (bk : Backend) (st : MState) (m : Msg)
    (cid : Option String) (nm : String) (k : HKind)
    (hlock : st.lock = false) (hn : m.name = some nm) (hr : resolvesTo st m nm k)
    (hs : m.subscribe = false) :
    process bk st (.dict m) cid =
      perspectiveCatch m (catchStep m (methodCallBody bk st m nm (some (handleFor k nm)))) := by
  rw [process_resolved bk st m cid nm k hlock hn hr]
  simp [hs]

/-- Claim C7: a bytes result of a non-subscribe method call that is not
`to_csv` is delivered as exactly two back-to-back frames — the originating
message augmented with is_transferable=true as a JSON frame, then the raw
bytes as a binary frame; a `to_csv` string result is never routed through
the binary protocol and is delivered as the single normal {id, data}
success message. -/
theorem C7_binaryProtocol :
    (∀ (bk : Backend) (st : MState) (m : Msg) (cid : Option String) (nm : String)
        (k : HKind) (mth : String) (shaped : ShapedArgs) (p : List JVal)
        (kw : List (String × JVal)) (bs : List Nat),
        st.lock = false → m.subscribe = false → m.name = some nm →
        resolvesTo st m nm k → m.method = some mth →
        shapeArgs m mth = .ok shaped →
        (mth == sDelete && m.cmd == sViewMethod) = false →
        callSpec m mth shaped = .ok (p, kw) →
        bk.call k nm mth p kw = .ok (.bytes bs) →
        (mth == sToCsv) = false → (m.toJVal true).wireOk = true →
        process bk st (.dict m) cid =
          { st := st, frames := [.json (m.toJVal true), .binary bs],
            trace := [Event.invoke k nm mth p kw], raised := none })
    ∧ (∀ (bk : Backend) (st : MState) (m : Msg) (cid : Option String) (nm : String)
        (k : HKind) (shaped : ShapedArgs) (p : List JVal)
        (kw : List (String × JVal)) (s : String),
        m.id.idSimple = true → st.lock = false → m.subscribe = false →
        m.name = some nm → resolvesTo st m nm k → m.method = some sToCsv →
        shapeArgs m sToCsv = .ok shaped → callSpec m sToCsv shaped = .ok (p, kw) →
        bk.call k nm sToCsv p kw = .ok (.strv s) →
        process bk st (.dict m) cid =
          { st := st, frames := [.json (makeMessage m.id (.strv s))],
            trace := [Event.invoke k nm sToCsv p kw], raised := none }) := by
  constructor
  · intro bk st m cid nm k mth shaped p kw bs hlock hs hn hr hm hsh hnd hspec hcall hncsv hwire
    rw [process_body_resolved bk st m cid nm k hlock hn hr hs,
      methodCallBody_invoke_eq bk st m nm k mth shaped p kw _ hm hsh hnd hspec hcall]
    have hne : (mth != sToCsv) = true := by simp [bne, hncsv]
    have hhr : handleResult m mth (.bytes bs) = ([.json (m.toJVal true), .binary bs], none) := by
      simp [handleResult, hne, processBytes, encV_wireOk _ hwire]
    rw [hhr]
    rw [catchStep_none m _ rfl]
    exact perspectiveCatch_none m _ rfl
  · intro bk st m cid nm k shaped p kw s hid hlock hs hn hr hm hsh hspec hcall
    rw [process_body_resolved bk st m cid nm k hlock hn hr hs,
      methodCallBody_invoke_eq bk st m nm k sToCsv shaped p kw _ hm hsh rfl hspec hcall]
    have hhr : handleResult m sToCsv (.strv s) = ([.json (makeMessage m.id (.strv s))], none) := by
      simp [handleResult, postResult, messageToJson_make_str m.id s hid]
    rw [hhr]
    rw [catchStep_none m _ rfl]
    exact perspectiveCatch_none m _ rfl

theorem C7_binaryProtocol_witness :
    (process bkBytes stT (.dict msg7) none =
      { st := stT, frames := [.json (msg7.toJVal true), .binary [9, 9]],
        trace := [Event.invoke .table tKey sToArrow [] []], raised := none }) ∧
    (process bkCsv stT (.dict msgCsv) none =
      { st := stT, frames := [.json (makeMessage msgCsv.id (.strv "a,b"))],
        trace := [Event.invoke .table tKey sToCsv [] []], raised := none }) :=
  ⟨C7_binaryProtocol.1 bkBytes stT msg7 none tKey .table sToArrow (.kw []) [] [] [9, 9]
      rfl rfl rfl ⟨rfl, rfl⟩ rfl rfl rfl rfl rfl rfl rfl,
    C7_binaryProtocol.2 bkCsv stT msgCsv none tKey .table (.kw []) [] [] "a,b"
      rfl rfl rfl rfl ⟨rfl, rfl⟩ rfl rfl rfl rfl⟩

theorem messageToJson_make_bytes (id : JVal) (bs : List Nat) (hid : id.idSimple = true) :
    messageToJson id (makeMessage id (.bytes bs)) = .error (.typeError bytesTypeErrorText) := by
  cases id <;> first | rfl | simp [JVal.idSimple] at hid

/-- Claim C4 counterexample: the encoder does throw past its own boundary
for some input messages — `_message_to_json` on a message whose data is a
raw byte string raises a TypeError (only the non-finite-float ValueError is
caught), so "the encoder never throws uncaught past its own boundary for
any input message" is false. -/
theorem C4_counterexample :
    messageToJson (.intv 1) (makeMessage (.intv 1) (.bytes [])) =
      .error (.typeError bytesTypeErrorText) := rfl

/-- Claim C4 (amended): encoding a response message containing a non-finite
float fails internally and the encoder itself returns the successfully
serialized error message for the same id whose text names NaN/Infinity; for
byte-free messages the encoder never throws.  For a message holding raw
bytes (a `to_csv` call whose result is bytes) the encoder raises TypeError
past its boundary, but the method-call dispatcher catches it and still
delivers a serialized error response for the same id. -/
theorem C4_serialization :
    (∀ id msgv : JVal, id.idSimple = true → msgv.noBytes = true →
        msgv.hasNonFinite = true →
        messageToJson id msgv =
          .ok (makeErrorMessage id (serializationPrefixText ++ nanErrorText)))
    ∧ (∀ id msgv : JVal, id.idSimple = true → msgv.noBytes = true →
        ∃ v, messageToJson id msgv = .ok v)
    ∧ (∀ (bk : Backend) (st : MState) (m : Msg) (cid : Option String) (nm : String)
        (k : HKind) (shaped : ShapedArgs) (p : List JVal)
        (kw : List (String × JVal)) (bs : List Nat),
        m.id.idSimple = true → st.lock = false → m.subscribe = false →
        m.name = some nm → resolvesTo st m nm k → m.method = some sToCsv →
        shapeArgs m sToCsv = .ok shaped → callSpec m sToCsv shaped = .ok (p, kw) →
        bk.call k nm sToCsv p kw = .ok (.bytes bs) →
        process bk st (.dict m) cid =
          { st := st, frames := [.json (makeErrorMessage m.id bytesTypeErrorText)],
            trace := [Event.invoke k nm sToCsv p kw], raised := none }) := by
  refine ⟨fun id msgv hid hnb hnf => ?_, fun id msgv hid hnb => ?_, ?_⟩
  · rcases encV_classify msgv hnb with ⟨h1, h2⟩ | ⟨h1, w, h2⟩
    · unfold messageToJson
      rw [h2, encV_makeError true false id _ hid]
    · rw [h1] at hnf
      exact absurd hnf (by decide)
  · rcases encV_classify msgv hnb with ⟨h1, h2⟩ | ⟨h1, w, h2⟩
    · refine ⟨makeErrorMessage id (serializationPrefixText ++ nanErrorText), ?_⟩
      unfold messageToJson
      rw [h2, encV_makeError true false id _ hid]
    · refine ⟨w, ?_⟩
      unfold messageToJson
      rw [h2]
  · intro bk st m cid nm k shaped p kw bs hid hlock hs hn hr hm hsh hspec hcall
    rw [process_body_resolved bk st m cid nm k hlock hn hr hs,
      methodCallBody_invoke_eq bk st m nm k sToCsv shaped p kw _ hm hsh rfl hspec hcall]
    have hhr : handleResult m sToCsv (.bytes bs) =
        ([], some (.typeError bytesTypeErrorText)) := by
      simp [handleResult, postResult, messageToJson_make_bytes m.id bs hid]
    rw [hhr]
    rw [catchStep_some m _ (.typeError bytesTypeErrorText) hid rfl]
    exact perspectiveCatch_none m _ rfl

theorem C4_serialization_witness :
    (messageToJson (.intv 11) (makeMessage (.intv 11) .nan) =
      .ok (makeErrorMessage (.intv 11) (serializationPrefixText ++ nanErrorText))) ∧
    (process bkBytes stT (.dict msgCsv) none =
      { st := stT, frames := [.json (makeErrorMessage msgCsv.id bytesTypeErrorText)],
        trace := [Event.invoke .table tKey sToCsv [] []], raised := none }) :=
  ⟨C4_serialization.1 (.intv 11) (makeMessage (.intv 11) .nan) rfl rfl rfl,
    C4_serialization.2.2 bkBytes stT msgCsv none tKey .table (.kw []) [] [] [9, 9]
      rfl rfl rfl rfl ⟨rfl, rfl⟩ rfl rfl rfl rfl⟩

theorem setKey_mono {α : Type} (l : List (String × α)) (key : String) (v : α) (n : String)
    (h : getKey l n ≠ none) : getKey (setKey l key v) n ≠ none := by
  induction l with
  | nil => simp [getKey] at h
  | cons p rest ih =>
    obtain ⟨k, w⟩ := p
    by_cases hk : (k == key) = true
    · by_cases hn2 : (k == n) = true
      · simp [setKey, getKey, hk, hn2]
      · simp [getKey, hn2] at h
        simp [setKey, getKey, hk, hn2, h]
    · by_cases hn2 : (k == n) = true
      · simp [setKey, getKey, hk, hn2]
      · simp [getKey, hn2] at h
        simp [setKey, getKey, hk, hn2]
        exact ih h

theorem callSpec_ok_ne_delete (m : Msg) (mth : String) (shaped : ShapedArgs)
    (p : List JVal) (kw : List (String × JVal))
    (h : callSpec m mth shaped = .ok (p, kw)) : mth ≠ sDelete := by
  intro he
  subst he
  rw [show callSpec m sDelete shaped = .error (.unboundLocal unboundResultText) from rfl] at h
  simp at h

theorem invokeOn_c8 (bk : Backend) (h : Option HandleRef) (mth : String)
    (p : List JVal) (kw : List (String × JVal)) (hne : mth ≠ sDelete) :
    ∀ e ∈ (invokeOn bk h mth p kw).1, ¬ tableDeleteEvent e := by
  intro e he
  cases h with
  | none => simp [invokeOn] at he
  | some href =>
    cases href with
    | tbl nm2 ent =>
      cases ent with
      | real =>
        simp [invokeOn] at he
        subst he
        simp [tableDeleteEvent]
        exact hne
      | placeholder => simp [invokeOn] at he
    | vw nm2 =>
      simp [invokeOn] at he
      subst he
      simp [tableDeleteEvent]

theorem methodCallBody_c8 (bk : Backend) (st : MState) (m : Msg) (nm : String)
    (h : Option HandleRef) :
    (methodCallBody bk st m nm h).st.tables = st.tables ∧
    ∀ e ∈ (methodCallBody bk st m nm h).trace, ¬ tableDeleteEvent e := by
  unfold methodCallBody
  cases hm : m.method with
  | none => exact ⟨rfl, by intro e he; simp at he⟩
  | some mth =>
    cases hsh : shapeArgs m mth with
    | error e2 => exact ⟨by simp [hsh], by intro e he; simp [hsh] at he⟩
    | ok shaped =>
      by_cases hdel : (mth == sDelete && m.cmd == sViewMethod) = true
      · cases hv : getKey st.views nm with
        | none => exact ⟨by simp [hsh, hdel, hv], by intro e he; simp [hsh, hdel, hv] at he⟩
        | some ve =>
          cases hc : bk.call .view nm sDelete [] [] with
          | ok r =>
            refine ⟨by simp [hsh, hdel, hv, hc], ?_⟩
            intro e he
            simp [hsh, hdel, hv, hc] at he
            subst he
            simp [tableDeleteEvent]
          | error e2 =>
            refine ⟨by simp [hsh, hdel, hv, hc], ?_⟩
            intro e he
            simp [hsh, hdel, hv, hc] at he
            subst he
            simp [tableDeleteEvent]
      · simp only [Bool.not_eq_true] at hdel
        cases hspec : callSpec m mth shaped with
        | error e2 =>
          exact ⟨by simp [hsh, hdel, hspec], by intro e he; simp [hsh, hdel, hspec] at he⟩
        | ok pk =>
          obtain ⟨p, kw⟩ := pk
          have hne := callSpec_ok_ne_delete m mth shaped p kw hspec
          rcases hio : invokeOn bk h mth p kw with ⟨evs, res⟩
          have hevs : ∀ e ∈ evs, ¬ tableDeleteEvent e := by
            intro e he
            have h3 := invokeOn_c8 bk h mth p kw hne e
            rw [hio] at h3
            exact h3 he
          cases res with
          | error e2 =>
            refine ⟨by simp [hsh, hdel, hspec, hio], ?_⟩
            intro e he
            simp [hsh, hdel, hspec, hio] at he
            exact hevs e he
          | ok r =>
            refine ⟨by simp [hsh, hdel, hspec, hio], ?_⟩
            intro e he
            simp [hsh, hdel, hspec, hio] at he
            exact hevs e he

theorem invokeSubOn_c8 (bk : Backend) (h : Option HandleRef) (mth : String)
    (kw : List (String × JVal)) (hne : mth ≠ sDelete) :
    ∀ e ∈ (invokeSubOn bk h mth kw).1, ¬ tableDeleteEvent e := by
  intro e he
  cases h with
  | none => simp [invokeSubOn] at he
  | some href =>
    cases href with
    | tbl nm2 ent =>
      cases ent with
      | real =>
        simp [invokeSubOn] at he
        subst he
        simp [tableDeleteEvent]
        exact hne
      | placeholder => simp [invokeSubOn] at he
    | vw nm2 =>
      simp [invokeSubOn] at he
      subst he
      simp [tableDeleteEvent]

theorem processSubscribe_c8 (bk : Backend) (st : MState) (m : Msg) (h : Option HandleRef)
    (cid : Option String) :
    (processSubscribe bk st m h cid).st.tables = st.tables ∧
    ∀ e ∈ (processSubscribe bk st m h cid).trace, ¬ tableDeleteEvent e := by
  unfold processSubscribe
  cases hm2 : m.method with
  | none =>
    cases hcb : m.callback_id with
    | none =>
      constructor
      · rw [catchStep_st]
        simp
      · intro e he
        rw [catchStep_trace] at he
        simp at he
    | some c =>
      constructor
      · rw [catchStep_st]
        simp
      · intro e he
        rw [catchStep_trace] at he
        simp at he
        subst he
        simp [tableDeleteEvent]
  | some mth =>
    by_cases hon : (mth != "" && mth.take 2 == sOn) = true
    · have hnd : mth ≠ sDelete := by
        intro he2
        subst he2
        rw [Bool.and_eq_true] at hon
        exact absurd hon.2 (by decide)
      have hinv : ∀ e ∈ (if mth == sOnUpdate then
          match m.args.getD [] with
          | [] => invokeSubOn bk h mth [(sMode, .strv sNone)]
          | a :: _ =>
            match a with
            | .obj o => invokeSubOn bk h mth o.pairs
            | _ => ([], .error (.typeError kwargsNotMappingText))
         else invokeSubOn bk h mth []).1, ¬ tableDeleteEvent e := by
        by_cases hu : (mth == sOnUpdate) = true
        · cases hargs : m.args.getD [] with
          | nil => simpa [hu, hargs] using invokeSubOn_c8 bk h mth [(sMode, .strv sNone)] hnd
          | cons a rest =>
            cases a <;> simp [hu, hargs] <;>
              first
                | (intro e he; simp at he)
                | exact invokeSubOn_c8 bk h mth _ hnd
        · simp only [Bool.not_eq_true] at hu
          simpa [hu] using invokeSubOn_c8 bk h mth [] hnd
      cases hcb : m.callback_id with
      | none =>
        constructor
        · rw [catchStep_st]
          simp [hon, hm2, hcb]
        · intro e he
          rw [catchStep_trace] at he
          simp only [hon, hm2, hcb] at he
          simp at he
          exact hinv e (by simpa using he)
      | some c =>
        by_cases htr : c.truthy = true
        · constructor
          · rw [catchStep_st]
            simp [hon, hm2, hcb, htr]
          · intro e he
            rw [catchStep_trace] at he
            simp only [hon, hm2, hcb, htr] at he
            simp at he
            rcases he with he | he
            · subst he
              simp [tableDeleteEvent]
            · exact hinv e (by simpa using he)
        · simp only [Bool.not_eq_true] at htr
          constructor
          · rw [catchStep_st]
            simp [hon, hm2, hcb, htr]
          · intro e he
            rw [catchStep_trace] at he
            simp only [hon, hm2, hcb, htr] at he
            simp at he
            exact hinv e (by simpa using he)
    · simp only [Bool.not_eq_true] at hon
      cases hcb : m.callback_id with
      | none =>
        constructor
        · rw [catchStep_st]
          simp [hon, hm2, hcb]
        · intro e he
          rw [catchStep_trace] at he
          simp only [hon, hm2, hcb] at he
          simp at he
      | some c =>
        constructor
        · rw [catchStep_st]
          simp [hon, hm2, hcb]
        · intro e he
          rw [catchStep_trace] at he
          simp only [hon, hm2, hcb] at he
          simp at he
          subst he
          simp [tableDeleteEvent]

theorem processMethodCall_c8 (bk : Backend) (st : MState) (m : Msg) (cid : Option String) :
    (processMethodCall bk st m cid).st.tables = st.tables ∧
    ∀ e ∈ (processMethodCall bk st m cid).trace, ¬ tableDeleteEvent e := by
  unfold processMethodCall
  cases hn : m.name with
  | none => exact ⟨rfl, fun e he => by simp at he⟩
  | some nm =>
    have hbody : ∀ h : Option HandleRef,
        (catchStep m (if m.subscribe then processSubscribe bk st m h cid
                      else methodCallBody bk st m nm h)).st.tables = st.tables ∧
        ∀ e ∈ (catchStep m (if m.subscribe then processSubscribe bk st m h cid
                            else methodCallBody bk st m nm h)).trace,
          ¬ tableDeleteEvent e := by
      intro h
      constructor
      · rw [catchStep_st]
        cases hsub : m.subscribe with
        | true => simpa [hsub] using (processSubscribe_c8 bk st m h cid).1
        | false => simpa [hsub] using (methodCallBody_c8 bk st m nm h).1
      · intro e he
        rw [catchStep_trace] at he
        cases hsub : m.subscribe with
        | true =>
          rw [hsub] at he
          simp only [if_true] at he
          exact (processSubscribe_c8 bk st m h cid).2 e he
        | false =>
          rw [hsub] at he
          simp only [Bool.false_eq_true, if_false] at he
          exact (methodCallBody_c8 bk st m nm h).2 e he
    by_cases hc : (m.cmd == sTableMethod) = true
    · refine ⟨?_, ?_⟩
      · simp only [hc, if_true]
        exact (hbody _).1
      · intro e he
        simp only [hc, if_true] at he
        exact (hbody _).2 e he
    · simp only [Bool.not_eq_true] at hc
      cases hv : getKey st.views nm with
      | some ve =>
        refine ⟨?_, ?_⟩
        · simp only [hc, Bool.false_eq_true, if_false, hv]
          exact (hbody _).1
        · intro e he
          simp only [hc, Bool.false_eq_true, if_false, hv] at he
          exact (hbody _).2 e he
      | none =>
        cases hj : messageToJson m.id (makeErrorMessage m.id viewNotInitText) with
        | ok v =>
          refine ⟨?_, ?_⟩
          · simp only [hc, Bool.false_eq_true, if_false, hv, hj]
            exact (hbody _).1
          · intro e he
            simp only [hc, Bool.false_eq_true, if_false, hv, hj] at he
            exact (hbody _).2 e he
        | error e2 =>
          refine ⟨?_, ?_⟩
          · simp [hc, hv, hj]
          · intro e he
            simp [hc, hv, hj] at he

/-- Claim C8: no dispatched message ever removes a table from the table
registry (lookups that succeeded before the message still succeed after:
entries are only added or overwritten), and no message ever invokes
`delete` on a table handle — only view handles receive `delete`. -/
theorem C8_tablesPreserved :
    ∀ (bk : Backend) (st : MState) (im : InMsg) (cid : Option String),
      (∀ n, getKey st.tables n ≠ none →
        getKey (process bk st im cid).st.tables n ≠ none) ∧
      (∀ e ∈ (process bk st im cid).trace, ¬ tableDeleteEvent e) := by
  intro bk st im cid
  cases im with
  | heartbeat => exact ⟨fun n h => h, fun e he => by simp [process] at he⟩
  | malformed => exact ⟨fun n h => h, fun e he => by simp [process] at he⟩
  | dict m =>
    by_cases hl : isLockedCommand st.lock m = true
    · cases hj : messageToJson m.id (makeErrorMessage m.id (accessDeniedText m)) with
      | ok v =>
        exact ⟨fun n h => by simpa [process, hl, hj] using h,
          fun e he => by simp [process, hl, hj] at he⟩
      | error e2 =>
        exact ⟨fun n h => by simpa [process, hl, hj] using h,
          fun e he => by simp [process, hl, hj] at he⟩
    · simp only [Bool.not_eq_true] at hl
      have hmain :
          ((process bk st (.dict m) cid).st.tables = st.tables ∨
            ∃ nm v, (process bk st (.dict m) cid).st.tables = setKey st.tables nm v) ∧
          ∀ e ∈ (process bk st (.dict m) cid).trace, ¬ tableDeleteEvent e := by
        have hpc : ∀ b : Step,
            (perspectiveCatch m b).st = b.st ∧ (perspectiveCatch m b).trace = b.trace :=
          fun b => ⟨perspectiveCatch_st m b, perspectiveCatch_trace m b⟩
        by_cases h1 : (m.cmd == sInit) = true
        · cases hj : messageToJson m.id (makeMessage m.id .null) with
          | ok v =>
            refine ⟨.inl ?_, fun e he => ?_⟩
            · simp only [process, hl, Bool.false_eq_true, if_false, h1, if_true, hj]
              rw [(hpc _).1]
            · simp only [process, hl, Bool.false_eq_true, if_false, h1, if_true, hj] at he
              rw [(hpc _).2] at he
              simp at he
          | error e2 =>
            constructor
            · left
              simp only [process, hl, Bool.false_eq_true, if_false, h1, if_true, hj]
              rw [(hpc _).1]
            · intro e he
              simp only [process, hl, Bool.false_eq_true, if_false, h1, if_true, hj] at he
              rw [(hpc _).2] at he
              simp at he
        · simp only [Bool.not_eq_true] at h1
          by_cases h2 : (m.cmd == sTable) = true
          · cases hargs : m.args with
            | none =>
              constructor
              · left
                simp only [process, hl, Bool.false_eq_true, if_false, h1, h2, if_true, hargs]
                rw [(hpc _).1]
              · intro e he
                simp only [process, hl, Bool.false_eq_true, if_false, h1, h2, if_true,
                  hargs] at he
                rw [(hpc _).2] at he
                simp at he
            | some args =>
              cases args with
              | nil =>
                cases hnm : m.name with
                | none =>
                  constructor
                  · left
                    simp only [process, hl, Bool.false_eq_true, if_false, h1, h2, if_true,
                      hargs, hnm]
                    rw [(hpc _).1]
                  · intro e he
                    simp only [process, hl, Bool.false_eq_true, if_false, h1, h2, if_true,
                      hargs, hnm] at he
                    rw [(hpc _).2] at he
                    simp at he
                | some nm =>
                  constructor
                  · right
                    refine ⟨nm, .placeholder, ?_⟩
                    simp only [process, hl, Bool.false_eq_true, if_false, h1, h2, if_true,
                      hargs, hnm]
                    rw [(hpc _).1]
                  · intro e he
                    simp only [process, hl, Bool.false_eq_true, if_false, h1, h2, if_true,
                      hargs, hnm] at he
                    rw [(hpc _).2] at he
                    simp at he
                    subst he
                    simp [tableDeleteEvent]
              | cons x rest =>
                cases hbn : bk.tableNew x m.options with
                | error e2 =>
                  constructor
                  · left
                    simp only [process, hl, Bool.false_eq_true, if_false, h1, h2, if_true,
                      hargs, hbn]
                    rw [(hpc _).1]
                  · intro e he
                    simp only [process, hl, Bool.false_eq_true, if_false, h1, h2, if_true,
                      hargs, hbn] at he
                    rw [(hpc _).2] at he
                    simp at he
                | ok u =>
                  cases hnm : m.name with
                  | none =>
                    constructor
                    · left
                      simp only [process, hl, Bool.false_eq_true, if_false, h1, h2, if_true,
                        hargs, hbn, hnm]
                      rw [(hpc _).1]
                    · intro e he
                      simp only [process, hl, Bool.false_eq_true, if_false, h1, h2, if_true,
                        hargs, hbn, hnm] at he
                      rw [(hpc _).2] at he
                      simp at he
                  | some nm =>
                    constructor
                    · right
                      refine ⟨nm, .real, ?_⟩
                      simp only [process, hl, Bool.false_eq_true, if_false, h1, h2, if_true,
                        hargs, hbn, hnm]
                      rw [(hpc _).1]
                    · intro e he
                      simp only [process, hl, Bool.false_eq_true, if_false, h1, h2, if_true,
                        hargs, hbn, hnm] at he
                      rw [(hpc _).2] at he
                      simp at he
                      subst he
                      simp [tableDeleteEvent]
          · simp only [Bool.not_eq_true] at h2
            by_cases h3 : (m.cmd == sView) = true
            · have hviewgoal :
                  (process bk st (.dict m) cid).st.tables = st.tables ∧
                  ∀ e ∈ (process bk st (.dict m) cid).trace, ¬ tableDeleteEvent e := by
                cases htn : m.table_name with
                | none =>
                  constructor
                  · simp only [process, hl, Bool.false_eq_true, if_false, h1, h2, h3,
                      if_true, htn]
                    rw [(hpc _).1]
                  · intro e he
                    simp only [process, hl, Bool.false_eq_true, if_false, h1, h2, h3,
                      if_true, htn] at he
                    rw [(hpc _).2] at he
                    simp at he
                | some tn =>
                  cases hgt : getKey st.tables tn with
                  | none =>
                    constructor
                    · simp only [process, hl, Bool.false_eq_true, if_false, h1, h2, h3,
                        if_true, htn, hgt]
                      rw [(hpc _).1]
                    · intro e he
                      simp only [process, hl, Bool.false_eq_true, if_false, h1, h2, h3,
                        if_true, htn, hgt] at he
                      rw [(hpc _).2] at he
                      simp at he
                  | some ent =>
                    cases ent with
                    | placeholder =>
                      constructor
                      · simp only [process, hl, Bool.false_eq_true, if_false, h1, h2, h3,
                          if_true, htn, hgt]
                        rw [(hpc _).1]
                      · intro e he
                        simp only [process, hl, Bool.false_eq_true, if_false, h1, h2, h3,
                          if_true, htn, hgt] at he
                        rw [(hpc _).2] at he
                        simp at he
                    | real =>
                      cases hbv : bk.tableView tn m.config with
                      | error e2 =>
                        constructor
                        · simp only [process, hl, Bool.false_eq_true, if_false, h1, h2, h3,
                            if_true, htn, hgt, hbv]
                          rw [(hpc _).1]
                        · intro e he
                          simp only [process, hl, Bool.false_eq_true, if_false, h1, h2, h3,
                            if_true, htn, hgt, hbv] at he
                          rw [(hpc _).2] at he
                          simp at he
                      | ok u =>
                        cases hvn : m.view_name with
                        | none =>
                          constructor
                          · simp only [process, hl, Bool.false_eq_true, if_false, h1, h2, h3,
                              if_true, htn, hgt, hbv, hvn]
                            rw [(hpc _).1]
                          · intro e he
                            simp only [process, hl, Bool.false_eq_true, if_false, h1, h2, h3,
                              if_true, htn, hgt, hbv, hvn] at he
                            rw [(hpc _).2] at he
                            simp at he
                        | some vn =>
                          constructor
                          · simp only [process, hl, Bool.false_eq_true, if_false, h1, h2, h3,
                              if_true, htn, hgt, hbv, hvn]
                            rw [(hpc _).1]
                          · intro e he
                            simp only [process, hl, Bool.false_eq_true, if_false, h1, h2, h3,
                              if_true, htn, hgt, hbv, hvn] at he
                            rw [(hpc _).2] at he
                            simp at he
                            subst he
                            simp [tableDeleteEvent]
              exact ⟨.inl hviewgoal.1, hviewgoal.2⟩
            · simp only [Bool.not_eq_true] at h3
              by_cases h4 : (m.cmd == sTableMethod || m.cmd == sViewMethod) = true
              · constructor
                · left
                  simp only [process, hl, Bool.false_eq_true, if_false, h1, h2, h3, h4,
                    if_true]
                  rw [(hpc _).1]
                  exact (processMethodCall_c8 bk st m cid).1
                · intro e he
                  simp only [process, hl, Bool.false_eq_true, if_false, h1, h2, h3, h4,
                    if_true] at he
                  rw [(hpc _).2] at he
                  exact (processMethodCall_c8 bk st m cid).2 e he
              · simp only [Bool.not_eq_true] at h4
                constructor
                · left
                  simp only [process, hl, Bool.false_eq_true, if_false, h1, h2, h3, h4]
                  rw [(hpc _).1]
                · intro e he
                  simp only [process, hl, Bool.false_eq_true, if_false, h1, h2, h3, h4] at he
                  rw [(hpc _).2] at he
                  simp at he
      refine ⟨?_, hmain.2⟩
      intro n h
      rcases hmain.1 with hT | ⟨nm, v, hT⟩
      · rw [hT]
        exact h
      · rw [hT]
        exact setKey_mono st.tables nm v n h

theorem C8_tablesPreserved_witness :
    getKey (process bkOk stT (.dict msgDel) none).st.tables tKey ≠ none :=
  (C8_tablesPreserved bkOk stT (.dict msgDel) none).1 tKey (by decide)

theorem processSubscribe_onMethod (bk : Backend) (st : MState) (m : Msg)
    (h : Option HandleRef) (cid : Option String) (mth : String) (c : JVal)
    (hm : m.method = some mth) (hcb : m.callback_id = some c)
    (hon : (mth != "" && mth.take 2 == sOn) = true) (htr : c.truthy = true) :
    (processSubscribe bk st m h cid).trace.head? =
      some (Event.addCb (callbackRecord cid c m)) ∧
    (processSubscribe bk st m h cid).st.callbacks =
      st.callbacks ++ [callbackRecord cid c m] := by
  constructor
  · unfold processSubscribe
    rw [catchStep_trace]
    simp only [hm, hon, hcb, htr, if_true]
    simp
  · unfold processSubscribe
    rw [catchStep_st]
    simp only [hm, hon, hcb, htr, if_true]

theorem processMethodCall_sub (bk : Backend) (st : MState) (m : Msg) (cid : Option String)
    (nm : String) (hid : m.id.idSimple = true) (hn : m.name = some nm)
    (hsub : m.subscribe = true) :
    (processMethodCall bk st m cid).trace =
      (processSubscribe bk st m (resolveHandle st m nm) cid).trace ∧
    (processMethodCall bk st m cid).st =
      (processSubscribe bk st m (resolveHandle st m nm) cid).st := by
  unfold processMethodCall
  by_cases hc : (m.cmd == sTableMethod) = true
  · constructor
    · simp only [hn, hc, if_true]
      rw [catchStep_trace]
      simp [hsub, resolveHandle, hc]
    · simp only [hn, hc, if_true]
      rw [catchStep_st]
      simp [hsub, resolveHandle, hc]
  · simp only [Bool.not_eq_true] at hc
    cases hv : getKey st.views nm with
    | some ve =>
      constructor
      · simp only [hn, hc, Bool.false_eq_true, if_false, hv]
        rw [catchStep_trace]
        simp [hsub, resolveHandle, hc, hv]
      · simp only [hn, hc, Bool.false_eq_true, if_false, hv]
        rw [catchStep_st]
        simp [hsub, resolveHandle, hc, hv]
    | none =>
      constructor
      · simp only [hn, hc, Bool.false_eq_true, if_false, hv,
          messageToJson_err_ok m.id viewNotInitText hid]
        rw [catchStep_trace]
        simp [hsub, resolveHandle, hc, hv]
      · simp only [hn, hc, Bool.false_eq_true, if_false, hv,
          messageToJson_err_ok m.id viewNotInitText hid]
        rw [catchStep_st]
        simp [hsub, resolveHandle, hc, hv]

theorem getId_of_mtj_make (id r v : JVal) (hid : id.idSimple = true)
    (hv : messageToJson id (makeMessage id r) = .ok v) : getId v = some id :=
  getId_of_messageToJson id (JObj.ofList [("data", r)]) v hid hv

theorem postResult_corr (id r : JVal) (hid : id.idSimple = true) :
    framesCorrelated id (postResult id r).1 := by
  intro f hf
  unfold postResult at hf
  cases hj : messageToJson id (makeMessage id r) with
  | ok v =>
    simp only [hj] at hf
    simp at hf
    subst hf
    exact getId_of_mtj_make id r v hid hj
  | error e =>
    simp only [hj] at hf
    simp at hf

theorem processBytes_corr (m : Msg) (bs : List Nat) (hid : m.id.idSimple = true) :
    framesCorrelated m.id (processBytes m bs).1 := by
  intro f hf
  unfold processBytes at hf
  cases hj : encV true true (m.toJVal true) with
  | ok v =>
    simp only [hj] at hf
    simp at hf
    rcases hf with hf | hf
    · subst hf
      exact getId_of_encV true true m.id (JObj.ofList (m.restPairs true)) v hid hj
    · subst hf
      trivial
  | error e =>
    simp only [hj] at hf
    simp at hf

theorem handleResult_corr (m : Msg) (mth : String) (r : JVal) (hid : m.id.idSimple = true) :
    framesCorrelated m.id (handleResult m mth r).1 := by
  unfold handleResult
  cases r with
  | bytes bs =>
    by_cases hcsv : (mth != sToCsv) = true
    · simpa [hcsv] using processBytes_corr m bs hid
    · simp only [Bool.not_eq_true] at hcsv
      simpa [hcsv] using postResult_corr m.id (.bytes bs) hid
  | null => simpa using postResult_corr m.id .null hid
  | boolv b => simpa using postResult_corr m.id (.boolv b) hid
  | intv n => simpa using postResult_corr m.id (.intv n) hid
  | nan => simpa using postResult_corr m.id .nan hid
  | inf => simpa using postResult_corr m.id .inf hid
  | ninf => simpa using postResult_corr m.id .ninf hid
  | strv s => simpa using postResult_corr m.id (.strv s) hid
  | datetime ts => simpa using postResult_corr m.id (.datetime ts) hid
  | arr xs => simpa using postResult_corr m.id (.arr xs) hid
  | obj o => simpa using postResult_corr m.id (.obj o) hid

theorem catchStep_corr (m : Msg) (b : Step) (hid : m.id.idSimple = true)
    (hb : framesCorrelated m.id b.frames) :
    framesCorrelated m.id (catchStep m b).frames := by
  cases hr : b.raised with
  | none => rw [catchStep_none m b hr]; exact hb
  | some e =>
    rw [catchStep_some m b e hid hr]
    intro f hf
    simp at hf
    rcases hf with hf | hf
    · exact hb f hf
    · subst hf
      exact getId_makeError m.id (Exc.str e)

theorem perspectiveCatch_corr (m : Msg) (b : Step) (hid : m.id.idSimple = true)
    (hb : framesCorrelated m.id b.frames) :
    framesCorrelated m.id (perspectiveCatch m b).frames := by
  cases hr : b.raised with
  | none => rw [perspectiveCatch_none m b hr]; exact hb
  | some e =>
    unfold perspectiveCatch
    simp only [hr]
    cases he : e.isPerspective with
    | false => simpa [he] using hb
    | true =>
      simp only [he, if_true]
      rw [messageToJson_err_ok m.id (Exc.str e) hid]
      intro f hf
      simp at hf
      rcases hf with hf | hf
      · exact hb f hf
      · subst hf
        exact getId_makeError m.id (Exc.str e)

theorem methodCallBody_corr (bk : Backend) (st : MState) (m : Msg) (nm : String)
    (h : Option HandleRef) (hid : m.id.idSimple = true) :
    framesCorrelated m.id (methodCallBody bk st m nm h).frames := by
  unfold methodCallBody
  cases hm : m.method with
  | none => intro f hf; simp at hf
  | some mth =>
    cases hsh : shapeArgs m mth with
    | error e2 => intro f hf; simp [hsh] at hf
    | ok shaped =>
      by_cases hdel : (mth == sDelete && m.cmd == sViewMethod) = true
      · cases hv : getKey st.views nm with
        | none => intro f hf; simp [hsh, hdel, hv] at hf
        | some ve =>
          cases hc : bk.call .view nm sDelete [] [] with
          | ok r => intro f hf; simp [hsh, hdel, hv, hc] at hf
          | error e2 => intro f hf; simp [hsh, hdel, hv, hc] at hf
      · simp only [Bool.not_eq_true] at hdel
        cases hspec : callSpec m mth shaped with
        | error e2 => intro f hf; simp [hsh, hdel, hspec] at hf
        | ok pk =>
          obtain ⟨p, kw⟩ := pk
          rcases hio : invokeOn bk h mth p kw with ⟨evs, res⟩
          cases res with
          | error e2 => intro f hf; simp [hsh, hdel, hspec, hio] at hf
          | ok r =>
            intro f hf
            simp only [hsh, hdel, Bool.false_eq_true, if_false, hspec, hio] at hf
            exact handleResult_corr m mth r hid f (by simpa using hf)

theorem processSubscribe_corr (bk : Backend) (st : MState) (m : Msg)
    (h : Option HandleRef) (cid : Option String) (hid : m.id.idSimple = true) :
    framesCorrelated m.id (processSubscribe bk st m h cid).frames := by
  unfold processSubscribe
  apply catchStep_corr m _ hid
  intro f hf
  simp at hf

theorem processMethodCall_corr (bk : Backend) (st : MState) (m : Msg)
    (cid : Option String) (hid : m.id.idSimple = true) :
    framesCorrelated m.id (processMethodCall bk st m cid).frames := by
  unfold processMethodCall
  cases hn : m.name with
  | none => intro f hf; simp at hf
  | some nm =>
    have hbody : ∀ h : Option HandleRef,
        framesCorrelated m.id
          (catchStep m (if m.subscribe then processSubscribe bk st m h cid
                        else methodCallBody bk st m nm h)).frames := by
      intro h
      apply catchStep_corr m _ hid
      cases hsub : m.subscribe with
      | true => simpa [hsub] using processSubscribe_corr bk st m h cid hid
      | false => simpa [hsub] using methodCallBody_corr bk st m nm h hid
    by_cases hc : (m.cmd == sTableMethod) = true
    · intro f hf
      simp only [hc, if_true, List.nil_append] at hf
      exact hbody _ f hf
    · simp only [Bool.not_eq_true] at hc
      cases hv : getKey st.views nm with
      | some ve =>
        intro f hf
        simp only [hc, Bool.false_eq_true, if_false, hv, List.nil_append] at hf
        exact hbody _ f hf
      | none =>
        intro f hf
        simp only [hc, Bool.false_eq_true, if_false, hv,
          messageToJson_err_ok m.id viewNotInitText hid, List.cons_append,
          List.nil_append] at hf
        simp at hf
        rcases hf with hf | hf
        · subst hf
          exact getId_makeError m.id viewNotInitText
        · exact hbody none f (by simpa using hf)

/-- Claim C1 counterexample: the scenario `{id: 1, cmd: "table", name: "t",
args: [{"a": "integer"}]}` with a successfully constructed table delivers NO
response at all — the frames list is empty and nothing is raised, while the
table is registered — contradicting "at least one response correlated to the
request's id is delivered" and the claimed `{id: 1, data: null}` response. -/
theorem C1_counterexample :
    (process bkOk st0 (.dict msgT) none).frames = [] ∧
    (process bkOk st0 (.dict msgT) none).raised = none ∧
    getKey (process bkOk st0 (.dict msgT) none).st.tables tKey = some .real :=
  ⟨rfl, rfl, rfl⟩

/-- Claim C1 (amended): every frame the dispatcher delivers is correlated to
the request's id (JSON frames carry that id; binary frames are the unlabeled
continuation of the preceding announcement), but not every request gets a
response: in particular a successful `table` creation command with a schema
argument delivers no frame at all while registering the table for subsequent
view commands. -/
theorem C1_correlation :
    (∀ (bk : Backend) (st : MState) (m : Msg) (cid : Option String),
        m.id.idSimple = true →
        framesCorrelated m.id (process bk st (.dict m) cid).frames)
    ∧ (∀ (bk : Backend) (st : MState) (m : Msg) (cid : Option String)
        (nm : String) (x : JVal) (rest : List JVal),
        st.lock = false → m.cmd = sTable → m.name = some nm →
        m.args = some (x :: rest) → bk.tableNew x m.options = .ok () →
        process bk st (.dict m) cid =
          { st := { st with tables := setKey st.tables nm TableEntry.real },
            frames := [], trace := [Event.newTable nm], raised := none }) := by
  constructor
  · intro bk st m cid hid
    by_cases hl : isLockedCommand st.lock m = true
    · intro f hf
      simp only [process, hl, if_true,
        messageToJson_err_ok m.id (accessDeniedText m) hid] at hf
      simp at hf
      subst hf
      exact getId_makeError m.id (accessDeniedText m)
    · simp only [Bool.not_eq_true] at hl
      by_cases h1 : (m.cmd == sInit) = true
      · intro f hf
        cases hj : messageToJson m.id (makeMessage m.id .null) with
        | ok v =>
          simp only [process, hl, Bool.false_eq_true, if_false, h1, if_true, hj] at hf
          rw [perspectiveCatch_none m _ rfl] at hf
          simp at hf
          subst hf
          exact getId_of_mtj_make m.id .null v hid hj
        | error e =>
          simp only [process, hl, Bool.false_eq_true, if_false, h1, if_true, hj] at hf
          refine perspectiveCatch_corr m _ hid ?_ f hf
          intro g hg
          simp at hg
      · simp only [Bool.not_eq_true] at h1
        by_cases h2 : (m.cmd == sTable) = true
        · intro f hf
          have hbase : ∀ b : Step, b.frames = [] →
              f ∈ (perspectiveCatch m b).frames → frameCorrelated m.id f := by
            intro b hempty hmem
            refine perspectiveCatch_corr m b hid ?_ f hmem
            intro g hg
            rw [hempty] at hg
            simp at hg
          cases hargs : m.args with
          | none =>
            simp only [process, hl, Bool.false_eq_true, if_false, h1, h2, if_true,
              hargs] at hf
            exact hbase _ rfl hf
          | some args =>
            cases args with
            | nil =>
              cases hnm : m.name with
              | none =>
                simp only [process, hl, Bool.false_eq_true, if_false, h1, h2, if_true,
                  hargs, hnm] at hf
                exact hbase _ rfl hf
              | some nm =>
                simp only [process, hl, Bool.false_eq_true, if_false, h1, h2, if_true,
                  hargs, hnm] at hf
                exact hbase _ rfl hf
            | cons x rest =>
              cases hbn : bk.tableNew x m.options with
              | error e2 =>
                simp only [process, hl, Bool.false_eq_true, if_false, h1, h2, if_true,
                  hargs, hbn] at hf
                exact hbase _ rfl hf
              | ok u =>
                cases hnm : m.name with
                | none =>
                  simp only [process, hl, Bool.false_eq_true, if_false, h1, h2, if_true,
                    hargs, hbn, hnm] at hf
                  exact hbase _ rfl hf
                | some nm =>
                  simp only [process, hl, Bool.false_eq_true, if_false, h1, h2, if_true,
                    hargs, hbn, hnm] at hf
                  exact hbase _ rfl hf
        · simp only [Bool.not_eq_true] at h2
          by_cases h3 : (m.cmd == sView) = true
          · intro f hf
            have hbase : ∀ b : Step, b.frames = [] →
                f ∈ (perspectiveCatch m b).frames → frameCorrelated m.id f := by
              intro b hempty hmem
              refine perspectiveCatch_corr m b hid ?_ f hmem
              intro g hg
              rw [hempty] at hg
              simp at hg
            cases htn : m.table_name with
            | none =>
              simp only [process, hl, Bool.false_eq_true, if_false, h1, h2, h3, if_true,
                htn] at hf
              exact hbase _ rfl hf
            | some tn =>
              cases hgt : getKey st.tables tn with
              | none =>
                simp only [process, hl, Bool.false_eq_true, if_false, h1, h2, h3, if_true,
                  htn, hgt] at hf
                exact hbase _ rfl hf
              | some ent =>
                cases ent with
                | placeholder =>
                  simp only [process, hl, Bool.false_eq_true, if_false, h1, h2, h3, if_true,
                    htn, hgt] at hf
                  exact hbase _ rfl hf
                | real =>
                  cases hbv : bk.tableView tn m.config with
                  | error e2 =>
                    simp only [process, hl, Bool.false_eq_true, if_false, h1, h2, h3,
                      if_true, htn, hgt, hbv] at hf
                    exact hbase _ rfl hf
                  | ok u =>
                    cases hvn : m.view_name with
                    | none =>
                      simp only [process, hl, Bool.false_eq_true, if_false, h1, h2, h3,
                        if_true, htn, hgt, hbv, hvn] at hf
                      exact hbase _ rfl hf
                    | some vn =>
                      simp only [process, hl, Bool.false_eq_true, if_false, h1, h2, h3,
                        if_true, htn, hgt, hbv, hvn] at hf
                      exact hbase _ rfl hf
          · simp only [Bool.not_eq_true] at h3
            by_cases h4 : (m.cmd == sTableMethod || m.cmd == sViewMethod) = true
            · intro f hf
              simp only [process, hl, Bool.false_eq_true, if_false, h1, h2, h3, h4,
                if_true] at hf
              exact perspectiveCatch_corr m _ hid
                (processMethodCall_corr bk st m cid hid) f hf
            · simp only [Bool.not_eq_true] at h4
              intro f hf
              simp only [process, hl, Bool.false_eq_true, if_false, h1, h2, h3, h4] at hf
              rw [perspectiveCatch_none m _ rfl] at hf
              simp at hf
  · intro bk st m cid nm x rest hlock hc hn hargs hok
    have hl : isLockedCommand st.lock m = false := by
      rw [hlock]
      exact isLockedCommand_false m
    have h1 : (m.cmd == sInit) = false := by rw [hc]; rfl
    have h2 : (m.cmd == sTable) = true := by rw [hc]; rfl
    simp only [process, hl, Bool.false_eq_true, if_false, h1, h2, if_true, hargs, hok, hn]
    exact perspectiveCatch_none m _ rfl

theorem C1_correlation_witness :
    (framesCorrelated msg3.id (process bkOk st0 (.dict msg3) none).frames) ∧
    (process bkOk st0 (.dict msgT) none =
      { st := { st0 with tables := setKey st0.tables tKey TableEntry.real },
        frames := [], trace := [Event.newTable tKey], raised := none }) :=
  ⟨C1_correlation.1 bkOk st0 msg3 none rfl,
    C1_correlation.2 bkOk st0 msgT none tKey
      (.obj (JObj.ofList [("a", JVal.strv "integer")])) [] rfl rfl rfl rfl rfl⟩

theorem invokeSubOn_no_addCb (bk : Backend) (h : Option HandleRef) (mth : String)
    (kw : List (String × JVal)) :
    ∀ e ∈ (invokeSubOn bk h mth kw).1, ∀ r : CbRecord, e ≠ Event.addCb r := by
  intro e he r
  cases h with
  | none => simp [invokeSubOn] at he
  | some href =>
    cases href with
    | tbl n ent =>
      cases ent with
      | real =>
        simp [invokeSubOn] at he
        subst he
        simp
      | placeholder => simp [invokeSubOn] at he
    | vw n =>
      simp [invokeSubOn] at he
      subst he
      simp

theorem processSubscribe_falsy (bk : Backend) (st : MState) (m : Msg)
    (h : Option HandleRef) (cid : Option String) (mth : String) (c : JVal)
    (hm : m.method = some mth) (hcb : m.callback_id = some c)
    (hon : (mth != "" && mth.take 2 == sOn) = true) (htr : c.truthy = false) :
    (processSubscribe bk st m h cid).st.callbacks = st.callbacks ∧
    ∀ e ∈ (processSubscribe bk st m h cid).trace, ∀ r : CbRecord, e ≠ Event.addCb r := by
  have hinv : ∀ e ∈ (if mth == sOnUpdate then
      match m.args.getD [] with
      | [] => invokeSubOn bk h mth [(sMode, .strv sNone)]
      | a :: _ =>
        match a with
        | .obj o => invokeSubOn bk h mth o.pairs
        | _ => ([], .error (.typeError kwargsNotMappingText))
     else invokeSubOn bk h mth []).1, ∀ r : CbRecord, e ≠ Event.addCb r := by
    by_cases hu : (mth == sOnUpdate) = true
    · cases hargs : m.args.getD [] with
      | nil => simpa [hu, hargs] using invokeSubOn_no_addCb bk h mth [(sMode, .strv sNone)]
      | cons a rest =>
        cases a <;> simp [hu, hargs] <;>
          first
            | (intro e he; simp at he)
            | exact invokeSubOn_no_addCb bk h mth _
    · simp only [Bool.not_eq_true] at hu
      simpa [hu] using invokeSubOn_no_addCb bk h mth []
  constructor
  · unfold processSubscribe
    rw [catchStep_st]
    simp [hm, hon, hcb, htr]
  · intro e he r
    unfold processSubscribe at he
    rw [catchStep_trace] at he
    simp only [hm, hon, hcb, htr, if_true, Bool.false_eq_true, if_false] at he
    simp at he
    exact hinv e (by simpa using he) r

/-- Claim C9 counterexample: the subscribe message `{cmd: "view_method",
name: "v", method: "on_update", subscribe: true, callback_id: 0}` supplies a
callback_id and its method begins with "on", yet NO Callback Record is
stored — the registry stays empty, because the source gates the store on
`if callback_id:`, which is false for the falsy id 0 — while the `on_update`
method is still invoked on the view handle. -/
theorem C9_counterexample :
    msg9z.callback_id = some (.intv 0) ∧
    msg9z.method = some sOnUpdate ∧
    msg9z.subscribe = true ∧
    (process bkOk stV (.dict msg9z) none).st.callbacks = [] ∧
    (process bkOk stV (.dict msg9z) none).trace =
      [Event.invokeSub .view vKey sOnUpdate [(sMode, .strv sNone)]] :=
  ⟨rfl, rfl, rfl, rfl, rfl⟩

/-- Claim C9 (amended): for every subscribe message whose method name begins
with "on" and that supplies a TRUTHY callback_id, the Callback Record —
client id, callback id, the wrapped callback (identified by its captured
message), and the handle's name — is appended to the callback registry, and
the registration is the first event of the trace, i.e. it happens before the
on* method is invoked on the handle.  When the supplied callback_id is falsy
(`if callback_id:` fails, e.g. for 0 or ""), no record is stored — the
registry is unchanged and no store event occurs — while the on* method is
still invoked on the handle. -/
theorem C9_subscribeStores :
    (∀ (bk : Backend) (st : MState) (m : Msg) (cid : Option String) (nm : String)
        (mth : String) (c : JVal),
      m.id.idSimple = true → st.lock = false → m.subscribe = true →
      (m.cmd = sTableMethod ∨ m.cmd = sViewMethod) → m.name = some nm →
      m.method = some mth → (mth != "" && mth.take 2 == sOn) = true →
      m.callback_id = some c → c.truthy = true →
      (process bk st (.dict m) cid).trace.head? =
        some (Event.addCb (callbackRecord cid c m)) ∧
      callbackRecord cid c m ∈ (process bk st (.dict m) cid).st.callbacks)
    ∧ (∀ (bk : Backend) (st : MState) (m : Msg) (cid : Option String) (nm : String)
        (mth : String) (c : JVal),
      m.id.idSimple = true → st.lock = false → m.subscribe = true →
      (m.cmd = sTableMethod ∨ m.cmd = sViewMethod) → m.name = some nm →
      m.method = some mth → (mth != "" && mth.take 2 == sOn) = true →
      m.callback_id = some c → c.truthy = false →
      (process bk st (.dict m) cid).st.callbacks = st.callbacks ∧
      ∀ e ∈ (process bk st (.dict m) cid).trace, ∀ r : CbRecord,
        e ≠ Event.addCb r) := by
  constructor
  · intro bk st m cid nm mth c hid hlock hsub hcmd hn hm hon hcb htr
    obtain ⟨htrace, hcbs⟩ :=
      processSubscribe_onMethod bk st m (resolveHandle st m nm) cid mth c hm hcb hon htr
    have hlift := processMethodCall_sub bk st m cid nm hid hn hsub
    constructor
    · rw [process_method bk st m cid hlock hcmd, perspectiveCatch_trace, hlift.1, htrace]
    · rw [process_method bk st m cid hlock hcmd, perspectiveCatch_st, hlift.2, hcbs]
      simp
  · intro bk st m cid nm mth c hid hlock hsub hcmd hn hm hon hcb htr
    obtain ⟨hcbs, hev⟩ :=
      processSubscribe_falsy bk st m (resolveHandle st m nm) cid mth c hm hcb hon htr
    have hlift := processMethodCall_sub bk st m cid nm hid hn hsub
    constructor
    · rw [process_method bk st m cid hlock hcmd, perspectiveCatch_st, hlift.2]
      exact hcbs
    · intro e he r
      rw [process_method bk st m cid hlock hcmd, perspectiveCatch_trace, hlift.1] at he
      exact hev e he r

theorem C9_subscribeStores_witness :
    ((process bkOk st0 (.dict msg9) none).trace.head? =
        some (Event.addCb (callbackRecord none (.intv 7) msg9)) ∧
      callbackRecord none (.intv 7) msg9 ∈
        (process bkOk st0 (.dict msg9) none).st.callbacks) ∧
    ((process bkOk stV (.dict msg9z) none).st.callbacks = stV.callbacks ∧
      ∀ e ∈ (process bkOk stV (.dict msg9z) none).trace, ∀ r : CbRecord,
        e ≠ Event.addCb r) :=
  ⟨C9_subscribeStores.1 bkOk st0 msg9 none nKey sOnUpdate (.intv 7)
      rfl rfl rfl (.inr rfl) rfl rfl (by decide) rfl rfl,
    C9_subscribeStores.2 bkOk stV msg9z none vKey sOnUpdate (.intv 0)
      rfl rfl rfl (.inr rfl) rfl rfl (by decide) rfl rfl⟩
